import Mathlib

/-!
Shallow embedding of the Habit-Diary habit-analytics and streak engine.

Conventions of the embedding:
* Calendar dates (`YYYY-MM-DD` strings in the source) are modelled as integers
  counting days, with day `0` anchored on a Monday, so that `formatDate` is an
  order-isomorphism onto the string keys and lexicographic comparison of date
  strings is integer comparison.  `startOfWeek(date, Monday)` becomes
  `weekStartOf d = d - d % 7`.
* Instants (`Date` values carrying a time of day) are modelled by `Instant`,
  a calendar day plus a local hour; `setHours(0,0,0,0)` is `Instant.day`.
  Every internal `new Date()` read of the wall clock is threaded through as an
  explicit `today : ℤ` (or `now : Instant`) parameter, all reads denoting the
  same reference instant.
* JavaScript numbers are modelled as exact rationals `ℚ`; `Math.round` is
  `jsRound` (half-up, i.e. toward +infinity), `0.8` is `4/5`.
* JavaScript `Set` becomes `Finset ℤ` (built by folding `insert` over the
  entry list, as the source does), `Array.prototype.sort` on distinct keys
  becomes `Finset.sort`, and stateful `for`/`while` loops become structural
  recursions; the unbounded backward-walking `while` loops get a fuel bound
  of `card + 1`, which is proved sufficient (the walk visits pairwise distinct
  members of a finite set, so it always stops by predicate failure, never by
  fuel exhaustion).
-/

/-- A wall-clock instant: a calendar day (days since the Monday epoch) and the
local hour of day.  `parseISO(...)`/`new Date()` followed by
`setHours(0,0,0,0)` corresponds to projecting out `day`. -/
structure Instant where
  day : ℤ
  hour : ℕ
deriving DecidableEq

/-- `HabitType` from `types.ts`: `'binary' | 'numeric'`. -/
inductive HabitType where
  | binary
  | numeric
deriving DecidableEq

/-- `Habit` from `types.ts` (fields that never enter the arithmetic, such as
`color`/`icon`, carry no information relevant to the engine and are kept as
plain data). -/
structure Habit where
  id : String
  name : String
  type : HabitType
  weeklyGoal : ℚ
  unit : String
  createdAt : Instant
  archived : Bool
  order : ℤ
deriving DecidableEq

/-- `DailyEntry` from `types.ts`, with the optional `targetAtEntry?` snapshot
modelled as `Option ℚ` (`none` = the field is absent/undefined). -/
structure DailyEntry where
  id : String
  habitId : String
  date : ℤ
  value : ℚ
  targetAtEntry : Option ℚ := none
  createdAt : Instant
  updatedAt : Instant
deriving DecidableEq

/-- `getWeekStart` / `startOfWeek(date, weekStartsOn: 1)`: the Monday of the
week containing `d` (day 0 is a Monday, `Int.emod` is nonnegative). -/
def weekStartOf (d : ℤ) : ℤ := d - d % 7

/-- `getWeekEnd`: the Sunday of the week containing `d`. -/
def weekEndOf (d : ℤ) : ℤ := weekStartOf d + 6

/-- `getWeekDates(weekStart)`: `eachDayOfInterval` from `weekStart` to the
Sunday of its week (7 days when `weekStart` is a Monday). -/
def weekDates (ws : ℤ) : List ℤ :=
  (List.range (weekEndOf ws - ws + 1).toNat).map (fun i => ws + (i : ℤ))

/-- `Math.round`: round half toward +infinity. -/
def jsRound (q : ℚ) : ℤ := ⌊q + 1/2⌋

/-- `Math.round(x * 100) / 100` — the 2-decimal rounding the source applies to
goal/remaining/avgNeededPerDay outputs. -/
def round2 (q : ℚ) : ℚ := (jsRound (q * 100) : ℚ) / 100

/-- `isDateEditable` (utils, part_003 lines 26-51).  Note a deviation from the
spec here: the source signature is `isDateEditable(dateStr)` and the function
reads the system clock itself via three internal `new Date()` calls, whereas
the spec requires the reference instant to be an explicit parameter.  The
embedding reifies those internal reads (all denoting one instant) as the
explicit `now` below in order to state the behaviour at all: future dates are
never editable, today always is, yesterday only while `now`'s local hour is
before 6, all earlier dates are locked. -/
def isDateEditable (dateDay : ℤ) (now : Instant) : Bool :=
  if now.day < dateDay then false
  else if dateDay = now.day then true
  else if dateDay = now.day - 1 then decide (now.hour < 6)
  else false

/-- `getEffectiveDailyGoal(entry, habit)`: the `targetAtEntry` snapshot when
present, else 1 for binary habits and `weeklyGoal / 7` for numeric ones. -/
def getEffectiveDailyGoal (entry : DailyEntry) (habit : Habit) : ℚ :=
  match entry.targetAtEntry with
  | some t => t
  | none =>
    match habit.type with
    | HabitType.binary => 1
    | HabitType.numeric => habit.weeklyGoal / 7

/-- `isEntryComplete(entry, habit)`: `value >= 1` for binary habits,
`value >= dailyGoal * 0.8` for numeric ones. -/
def isEntryComplete (entry : DailyEntry) (habit : Habit) : Bool :=
  let dailyGoal := getEffectiveDailyGoal entry habit
  match habit.type with
  | HabitType.binary => decide (1 ≤ entry.value)
  | HabitType.numeric => decide (dailyGoal * (4/5) ≤ entry.value)

/-- `WeeklyStats` from `types.ts`. -/
structure WeeklyStats where
  weekStart : ℤ
  habitId : String
  total : ℚ
  goal : ℚ
  remaining : ℚ
  avgNeededPerDay : ℚ
  isOnTrack : Bool
  completionPercentage : ℤ
  streak : ℕ
deriving DecidableEq

/-- The entries of `habit` falling inside the week of `ws`
(`entries.filter` in `calculateWeeklyStats`). -/
def weekHabitEntries (habit : Habit) (entries : List DailyEntry) (ws : ℤ) : List DailyEntry :=
  entries.filter (fun e => decide (e.habitId = habit.id ∧ ws ≤ e.date ∧ e.date ≤ weekEndOf ws))

/-- `total = Σ entry.value` over the habit's entries of the week. -/
def weekEntriesTotal (habit : Habit) (entries : List DailyEntry) (ws : ℤ) : ℚ :=
  ((weekHabitEntries habit entries ws).map (fun e => e.value)).sum

/-- The active days of the week: week days on/after the habit's creation day
(time of day stripped). -/
def activeDaysOf (habit : Habit) (ws : ℤ) : List ℤ :=
  (weekDates ws).filter (fun d => decide (habit.createdAt.day ≤ d))

/-- The pro-rated weekly goal before output rounding: the source's local
`goal` variable in `calculateWeeklyStats`. -/
def proratedGoal (habit : Habit) (ws : ℤ) : ℚ :=
  if 0 < (activeDaysOf habit ws).length then
    habit.weeklyGoal / 7 * ((activeDaysOf habit ws).length : ℚ)
  else habit.weeklyGoal

/-- `calculateWeeklyStats` (part_003 lines 156-215), with the wall clock
threaded as `today`. -/
def calculateWeeklyStats (habit : Habit) (entries : List DailyEntry) (ws : ℤ) (today : ℤ) :
    WeeklyStats :=
  let activeDays := activeDaysOf habit ws
  let total := weekEntriesTotal habit entries ws
  let activeDaysCount := activeDays.length
  let goal := proratedGoal habit ws
  let remaining := max 0 (goal - total)
  let remainingActiveDays := (activeDays.filter (fun d => decide (today ≤ d))).length
  let avgNeededPerDay :=
    if 0 < remainingActiveDays then remaining / (remainingActiveDays : ℚ) else 0
  let activePassedDays := (activeDays.filter (fun d => decide (d ≤ today))).length
  let expectedProgress :=
    if 0 < activePassedDays then goal / (activeDaysCount : ℚ) * (activePassedDays : ℚ) else 0
  let isOnTrack := decide (expectedProgress ≤ total) || decide (goal ≤ total)
  let completionPercentage :=
    if 0 < goal then min 100 (jsRound (total / goal * 100)) else 0
  { weekStart := ws
    habitId := habit.id
    total := total
    goal := round2 goal
    remaining := round2 remaining
    avgNeededPerDay := round2 avgNeededPerDay
    isOnTrack := isOnTrack
    completionPercentage := completionPercentage
    streak := 0 }

/-- `OverallStats` from `types.ts` (`string | null` habit ids become
`Option String`). -/
structure OverallStats where
  weekStart : ℤ
  totalHabits : ℕ
  habitsOnTrack : ℕ
  overallCompletionPercentage : ℤ
  bestPerformingHabit : Option String
  needsAttentionHabit : Option String
  weeklyPerfectDays : ℕ
  allHabitsWeeklyStreak : ℕ
deriving DecidableEq

/-- Stable insertion of a weekly-stats record into a list sorted by
descending `completionPercentage` (the JS stable
`sort((a, b) => b.completionPercentage - a.completionPercentage)`). -/
def insertStatDesc (x : WeeklyStats) : List WeeklyStats → List WeeklyStats
  | [] => [x]
  | a :: rest =>
    if a.completionPercentage ≤ x.completionPercentage then x :: a :: rest
    else a :: insertStatDesc x rest

/-- Stable descending sort by `completionPercentage`. -/
def sortStatsDesc (l : List WeeklyStats) : List WeeklyStats :=
  l.foldr insertStatDesc []

/-- `habitId || null`: JS `||` maps the empty string to `null`. -/
def habitIdOrNull (s : Option WeeklyStats) : Option String :=
  match s with
  | none => none
  | some st => if st.habitId = "" then none else some st.habitId

/-- The habits whose creation day is on/before `d` (the `habitsExistingOnDay`
filter used by both perfect-day computations). -/
def existingHabitsOn (habits : List Habit) (d : ℤ) : List Habit :=
  habits.filter (fun h => decide (h.createdAt.day ≤ d))

/-- The per-day "perfect day" predicate of `calculateOverallStats`
(part_003 lines 242-265): not a future day, at least one habit already
existed on day `d`, and every habit existing on `d` has a (first-found)
entry for `d` that `isEntryComplete`. -/
def overallPerfectDay (habits : List Habit) (entries : List DailyEntry) (today d : ℤ) : Bool :=
  if today < d then false
  else if (existingHabitsOn habits d).isEmpty then false
  else
    (existingHabitsOn habits d).all (fun h =>
      match entries.find? (fun e => decide (e.habitId = h.id ∧ e.date = d)) with
      | some e => isEntryComplete e h
      | none => false)

/-- `calculateOverallStats` (part_003 lines 217-277), wall clock threaded as
`today`. -/
def calculateOverallStats (habits : List Habit) (entries : List DailyEntry) (ws : ℤ)
    (today : ℤ) : OverallStats :=
  let stats := habits.map (fun h => calculateWeeklyStats h entries ws today)
  let applicableStats := stats.filter (fun s => decide (0 < s.goal))
  let habitsOnTrack := (applicableStats.filter (fun s => s.isOnTrack)).length
  let totalCompletion := (applicableStats.map (fun s => s.completionPercentage)).sum
  let overallCompletionPercentage :=
    if 0 < applicableStats.length then
      jsRound ((totalCompletion : ℚ) / (applicableStats.length : ℚ))
    else 0
  let sortedStats := sortStatsDesc applicableStats
  let bestPerformingHabit := habitIdOrNull sortedStats.head?
  let needsAttentionHabit := habitIdOrNull (sortedStats.filter (fun s => !s.isOnTrack)).head?
  let weeklyPerfectDays :=
    ((weekDates ws).filter (fun d => overallPerfectDay habits entries today d)).length
  { weekStart := ws
    totalHabits := habits.length
    habitsOnTrack := habitsOnTrack
    overallCompletionPercentage := overallCompletionPercentage
    bestPerformingHabit := bestPerformingHabit
    needsAttentionHabit := needsAttentionHabit
    weeklyPerfectDays := weeklyPerfectDays
    allHabitsWeeklyStreak := 0 }

/-- Fuel-bounded backward walk shared by all the `while (has(checkDate))`
loops: starting at `d`, step backwards by `step` while the predicate holds,
counting the steps.  The fuel is always instantiated with one more than the
cardinality of a finite set the predicate is contained in, which is proved
large enough for the walk to stop by predicate failure. -/
def predBackRun (P : ℤ → Bool) (step : ℤ) : ℤ → ℕ → ℕ
  | _, 0 => 0
  | d, fuel + 1 => if P d then predBackRun P step (d - step) fuel + 1 else 0

/-- The max-streak scan of `calculateHabitStreak` over the ascending sorted
success dates: running count of day-to-day differences equal to 1, taking the
maximum over maximal runs. -/
def scanGo (mx temp : ℕ) (prev : ℤ) : List ℤ → ℕ
  | [] => max mx temp
  | d :: rest =>
    if d - prev = 1 then scanGo mx (temp + 1) d rest
    else scanGo (max mx temp) 1 d rest

/-- The longest consecutive run in a finite set of dates, as computed by the
source's ascending scan. -/
def scanMaxOf (S : Finset ℤ) : ℕ :=
  match S.sort (· ≤ ·) with
  | [] => 0
  | d :: rest => scanGo 0 1 d rest

/-- The set of dates with an `isEntryComplete` entry (the `successDates` JS
`Set` of `calculateHabitStreak`). -/
def successDatesOf (habit : Habit) (habitEntries : List DailyEntry) : Finset ℤ :=
  habitEntries.foldr (fun e s => if isEntryComplete e habit then insert e.date s else s) ∅

/-- The `{ currentStreak, maxStreak }` result shape. -/
structure StreakPair where
  currentStreak : ℕ
  maxStreak : ℕ
deriving DecidableEq

/-- `calculateHabitStreak` (part_003 lines 469-538), wall clock threaded as
`today`: current streak walks backward from today (or yesterday when today is
not a success), max streak is the longest consecutive run of success dates. -/
def calculateHabitStreak (habitId : String) (habit : Habit) (entries : List DailyEntry)
    (today : ℤ) : StreakPair :=
  let habitEntries := entries.filter (fun e => decide (e.habitId = habitId))
  if habitEntries.isEmpty then ⟨0, 0⟩
  else
    let S := successDatesOf habit habitEntries
    let currentStreak :=
      if today ∈ S then predBackRun (fun d => decide (d ∈ S)) 1 today (S.card + 1)
      else if today - 1 ∈ S then predBackRun (fun d => decide (d ∈ S)) 1 (today - 1) (S.card + 1)
      else 0
    ⟨currentStreak, scanMaxOf S⟩

/-- The `'on-track' | 'warning' | 'behind'` pacing classification. -/
inductive WeeklyStatus where
  | onTrack
  | warning
  | behind
deriving DecidableEq

/-- Result shape of both `calculateOverallStreak` variants. -/
structure OverallStreak where
  currentStreak : ℕ
  maxStreak : ℕ
  isCurrentWeekOnTrack : Bool
  weeklyStatus : WeeklyStatus
deriving DecidableEq

/-- Per-habit pacing bucket shared by both `calculateOverallStreak` variants:
a habit already at its full weekly goal is on-track; otherwise compare the
total against the linear expected-by-today value `(weeklyGoal/7) * dayOfWeek`,
with a warning window of one day's worth of goal (`-1` for binary habits,
`-dailyGoal` for numeric ones). -/
def pacingBucket (habit : Habit) (total : ℚ) (dayOfWeek : ℤ) : WeeklyStatus :=
  if habit.weeklyGoal ≤ total then WeeklyStatus.onTrack
  else
    match habit.type with
    | HabitType.binary =>
      let expectedByToday := habit.weeklyGoal / 7 * (dayOfWeek : ℚ)
      let difference := total - expectedByToday
      if 0 ≤ difference then WeeklyStatus.onTrack
      else if -1 ≤ difference then WeeklyStatus.warning
      else WeeklyStatus.behind
    | HabitType.numeric =>
      let dailyGoal := habit.weeklyGoal / 7
      let expectedByToday := dailyGoal * (dayOfWeek : ℚ)
      let difference := total - expectedByToday
      if 0 ≤ difference then WeeklyStatus.onTrack
      else if -dailyGoal ≤ difference then WeeklyStatus.warning
      else WeeklyStatus.behind

/-- The overall weekly status: the worst bucket present (any habit behind
makes the week behind, else any warning makes it warning, else on-track);
the source counts the buckets and tests the counts against 0. -/
def weeklyStatusOf (habits : List Habit) (totals : String → ℚ) (dayOfWeek : ℤ) : WeeklyStatus :=
  let buckets := habits.map (fun h => pacingBucket h (totals h.id) dayOfWeek)
  if 0 < buckets.countP (fun b => decide (b = WeeklyStatus.behind)) then WeeklyStatus.behind
  else if 0 < buckets.countP (fun b => decide (b = WeeklyStatus.warning)) then
    WeeklyStatus.warning
  else WeeklyStatus.onTrack

/-- Total value logged for habit `hid` in the week starting at `w`
(the `weeklyTotals` map of the week-based `calculateOverallStreak`). -/
def weekTotal (entries : List DailyEntry) (w : ℤ) (hid : String) : ℚ :=
  ((entries.filter (fun e => decide (weekStartOf e.date = w ∧ e.habitId = hid))).map
    (fun e => e.value)).sum

/-- The set of week-start keys having at least one entry. -/
def entryWeekKeys (entries : List DailyEntry) : Finset ℤ :=
  entries.foldr (fun e s => insert (weekStartOf e.date) s) ∅

/-- The weeks counted as complete by the week-based `calculateOverallStreak`
(utils.ts lines 478-496): weeks with entries in which every habit reached at
least 80% of its weekly goal. -/
def completeWeeksOf (habits : List Habit) (entries : List DailyEntry) : Finset ℤ :=
  (entryWeekKeys entries).filter
    (fun w => habits.all (fun h => decide (h.weeklyGoal * (4/5) ≤ weekTotal entries w h.id)))

/-- The max-streak scan of the week-based `calculateOverallStreak` over the
ascending sorted complete weeks: 7 days per week, runs joined by 7-day key
differences. -/
def wkScanGo (mx temp : ℕ) (prev : ℤ) : List ℤ → ℕ
  | [] => max mx temp
  | w :: rest =>
    if w - prev = 7 then wkScanGo mx (temp + 7) w rest
    else wkScanGo (max mx temp) 7 w rest

/-- The longest run of consecutive complete weeks, in days. -/
def wkScanMaxOf (S : Finset ℤ) : ℕ :=
  match S.sort (· ≤ ·) with
  | [] => 0
  | w :: rest => wkScanGo 0 7 w rest

/-- `calculateOverallStreak` of `src/src/lib/utils.ts` (lines 451-616), the
week-based variant: each complete week counts 7 days; the backward week walk
starts only when the most recent complete week is exactly the last fully
elapsed week; an on-track current week adds its elapsed day-of-week count. -/
def calculateOverallStreakWeeks (habits : List Habit) (entries : List DailyEntry)
    (today : ℤ) : OverallStreak :=
  if habits.isEmpty then ⟨0, 0, true, WeeklyStatus.onTrack⟩
  else
    let currentWeekStart := weekStartOf today
    let CW := completeWeeksOf habits entries
    let dayOfWeek := today - currentWeekStart + 1
    let status := weeklyStatusOf habits (fun hid => weekTotal entries currentWeekStart hid)
      dayOfWeek
    let isOnTrack := decide (status = WeeklyStatus.onTrack)
    let lastWeekStart := currentWeekStart - 7
    let currentStreak :=
      if CW.max = (lastWeekStart : WithBot ℤ) then
        7 * predBackRun (fun w => decide (w ∈ CW)) 7 lastWeekStart (CW.card + 1) +
          (if isOnTrack then dayOfWeek.toNat else 0)
      else if isOnTrack then dayOfWeek.toNat else 0
    let maxStreak := max (wkScanMaxOf CW) currentStreak
    ⟨currentStreak, maxStreak, isOnTrack, status⟩

/-- The set of dates having at least one entry (`entriesByDateAndHabit` keys
of the day-based `calculateOverallStreak`). -/
def entryDateKeys (entries : List DailyEntry) : Finset ℤ :=
  entries.foldr (fun e s => insert e.date s) ∅

/-- The entry stored for `(d, hid)` by the day-based
`calculateOverallStreak`'s grouping pass: the entry with the highest value for
that key (first one encountered wins ties). -/
def bestEntryFor (entries : List DailyEntry) (d : ℤ) (hid : String) : Option DailyEntry :=
  entries.foldl
    (fun acc e =>
      if e.date = d ∧ e.habitId = hid then
        match acc with
        | none => some e
        | some ex => if ex.value < e.value then some e else acc
      else acc)
    none

/-- `isPerfectDay` of the day-based `calculateOverallStreak` (part_003 lines
576-600): the day has entries, at least one habit existed on it, and every
habit existing on it has a complete grouped entry. -/
def dayPerfect (habits : List Habit) (entries : List DailyEntry) (d : ℤ) : Bool :=
  if entries.any (fun e => decide (e.date = d)) then
    if (existingHabitsOn habits d).isEmpty then false
    else
      (existingHabitsOn habits d).all (fun h =>
        match bestEntryFor entries d h.id with
        | some e => isEntryComplete e h
        | none => false)
  else false

/-- The max-streak scan of the day-based `calculateOverallStreak` over all
ascending entry dates, tracking runs of perfect days joined by 1-day
differences (a non-perfect date resets the run). -/
def pdScanGo (P : ℤ → Bool) (mx temp : ℕ) (prev : ℤ) : List ℤ → ℕ
  | [] => max mx temp
  | d :: rest =>
    if P d then
      if temp = 0 then pdScanGo P mx 1 d rest
      else if d - prev = 1 then pdScanGo P mx (temp + 1) d rest
      else pdScanGo P (max mx temp) 1 d rest
    else pdScanGo P (max mx temp) 0 d rest

/-- `calculateOverallStreak` of part_003 (lines 544-719), the day-based
variant: consecutive perfect days ending at today or yesterday, with the same
live pacing classification as the week-based variant but with the current-week
totals restricted to entries dated up to today. -/
def calculateOverallStreakDays (habits : List Habit) (entries : List DailyEntry)
    (today : ℤ) : OverallStreak :=
  if habits.isEmpty then ⟨0, 0, true, WeeklyStatus.onTrack⟩
  else
    let D := entryDateKeys entries
    let P := fun d => dayPerfect habits entries d
    let currentStreak :=
      (if P today then 1 else 0) + predBackRun P 1 (today - 1) (D.card + 1)
    let scanResult := pdScanGo P 0 0 0 (D.sort (· ≤ ·))
    let maxStreak := max scanResult currentStreak
    let currentWeekStart := weekStartOf today
    let dayOfWeek := today - currentWeekStart + 1
    let totals := fun hid =>
      ((entries.filter
          (fun e => decide (currentWeekStart ≤ e.date ∧ e.date ≤ today ∧ e.habitId = hid))).map
        (fun e => e.value)).sum
    let status := weeklyStatusOf habits totals dayOfWeek
    ⟨currentStreak, maxStreak, decide (status = WeeklyStatus.onTrack), status⟩

/-- `StreakData` from `types.ts` (`lastActiveDate` is `''` when the habit has
no entries, modelled as `none`). -/
structure StreakData where
  habitId : String
  currentDailyStreak : ℕ
  longestDailyStreak : ℕ
  currentWeeklyStreak : ℕ
  longestWeeklyStreak : ℕ
  lastActiveDate : Option ℤ
deriving DecidableEq

/-- Stable insertion of an entry into a list sorted by descending date (the
JS stable `sort((a, b) => b.date.localeCompare(a.date))`). -/
def insertEntryDesc (x : DailyEntry) : List DailyEntry → List DailyEntry
  | [] => [x]
  | a :: rest =>
    if a.date ≤ x.date then x :: a :: rest
    else a :: insertEntryDesc x rest

/-- Stable descending sort of entries by date. -/
def sortEntriesDesc (l : List DailyEntry) : List DailyEntry :=
  l.foldr insertEntryDesc []

/-- The daily-streak loop of `calculateStreakData` (part_003 lines 300-327)
over the entries sorted by descending date: runs of `value > 0` entries on
consecutive days, the current streak latching onto the run that touches today
or yesterday, with the trailing run folded in by the final `Math.max`es. -/
def sdDailyLoop (today : ℤ) (cur longest temp : ℕ) (lastDate : Option ℤ) :
    List DailyEntry → ℕ × ℕ
  | [] => (max cur temp, max longest temp)
  | e :: rest =>
    if 0 < e.value then
      if lastDate = none ∨ lastDate = some (e.date + 1) then
        let temp' := temp + 1
        let cur' := if cur = 0 ∧ (e.date = today ∨ e.date = today - 1) then temp' else cur
        sdDailyLoop today cur' longest temp' (some e.date) rest
      else sdDailyLoop today cur (max longest temp) 1 (some e.date) rest
    else sdDailyLoop today cur (max longest temp) 0 none rest

/-- The `(weekStart, total)` pairs of `calculateStreakData`, sorted by
descending week key (distinct keys, so the JS stable sort is canonical). -/
def sdWeeklyPairs (habitEntries : List DailyEntry) : List (ℤ × ℚ) :=
  ((entryWeekKeys habitEntries).sort (· ≤ ·)).reverse.map
    (fun w =>
      (w, ((habitEntries.filter (fun e => decide (weekStartOf e.date = w))).map
        (fun e => e.value)).sum))

/-- The weekly-streak loop of `calculateStreakData` (part_003 lines 344-368):
runs of goal-meeting weeks on consecutive week keys, the current streak
latching onto the run touching the current or previous week. -/
def sdWeeklyLoop (curWeekStart prevWeekStart : ℤ) (weeklyGoal : ℚ)
    (cur longest temp : ℕ) (lastWeek : Option ℤ) : List (ℤ × ℚ) → ℕ × ℕ
  | [] => (max cur temp, max longest temp)
  | (w, total) :: rest =>
    if weeklyGoal ≤ total then
      if lastWeek = none ∨ lastWeek = some (w + 7) then
        let temp' := temp + 1
        let cur' := if cur = 0 ∧ (w = curWeekStart ∨ w = prevWeekStart) then temp' else cur
        sdWeeklyLoop curWeekStart prevWeekStart weeklyGoal cur' longest temp' (some w) rest
      else sdWeeklyLoop curWeekStart prevWeekStart weeklyGoal cur (max longest temp) 1
        (some w) rest
    else sdWeeklyLoop curWeekStart prevWeekStart weeklyGoal cur (max longest temp) 0 none rest

/-- `calculateStreakData` (part_003 lines 279-378), wall clock threaded as
`today`. -/
def calculateStreakData (habitId : String) (entries : List DailyEntry) (weeklyGoal : ℚ)
    (today : ℤ) : StreakData :=
  let habitEntries := sortEntriesDesc (entries.filter (fun e => decide (e.habitId = habitId)))
  if habitEntries.isEmpty then ⟨habitId, 0, 0, 0, 0, none⟩
  else
    let daily := sdDailyLoop today 0 0 0 none habitEntries
    let weekly := sdWeeklyLoop (weekStartOf today) (weekStartOf today - 7) weeklyGoal
      0 0 0 none (sdWeeklyPairs habitEntries)
    ⟨habitId, daily.1, daily.2, weekly.1, weekly.2, habitEntries.head?.map (fun e => e.date)⟩

/-- The localStorage snapshot `{ habits, entries }` of `localStorage.ts`. -/
structure StorageData where
  habits : List Habit
  entries : List DailyEntry
deriving DecidableEq

/-- The entry-list update of `upsertEntryLocal` (part_002 lines 82-107):
replace the first entry with the same `(habitId, date)` key, keeping its
`id`/`createdAt` (and its `targetAtEntry` when the update omits one) and
refreshing `value`/`updatedAt`; append a fresh entry when no match exists. -/
def upsertGo (entry : DailyEntry) (now : Instant) : List DailyEntry → List DailyEntry
  | [] =>
    [{ entry with
        id := entry.habitId ++ "_" ++ toString entry.date
        createdAt := now
        updatedAt := now }]
  | e :: rest =>
    if e.habitId = entry.habitId ∧ e.date = entry.date then
      { e with
          value := entry.value
          targetAtEntry := entry.targetAtEntry.or e.targetAtEntry
          updatedAt := now } :: rest
    else e :: upsertGo entry now rest

/-- `upsertEntryLocal` as a pure state transformer on the storage snapshot,
with the `new Date().toISOString()` stamps threaded as `now`. -/
def upsertEntryLocal (data : StorageData) (entry : DailyEntry) (now : Instant) : StorageData :=
  { data with entries := upsertGo entry now data.entries }

lemma predBackRun_mem (P : ℤ → Bool) (step : ℤ) :
    ∀ (fuel : ℕ) (d : ℤ) (i : ℕ), i < predBackRun P step d fuel →
      P (d - step * (i : ℤ)) = true := by
  intro fuel
  induction fuel with
  | zero => intro d i h; simp [predBackRun] at h
  | succ n ih =>
    intro d i h
    by_cases hP : P d = true
    · simp only [predBackRun, hP, if_true] at h
      cases i with
      | zero => simpa using hP
      | succ j =>
        have hj : j < predBackRun P step (d - step) n := by omega
        have hmem := ih (d - step) j hj
        have heq : d - step - step * (j : ℤ) = d - step * ((j + 1 : ℕ) : ℤ) := by
          push_cast
          ring
        rw [heq] at hmem
        exact hmem
    · simp only [predBackRun, hP, if_false, Bool.false_eq_true] at h
      omega

lemma predBackRun_le_of_subset (P : ℤ → Bool) (D : Finset ℤ) (step : ℤ)
    (hstep : step ≠ 0) (hP : ∀ x : ℤ, P x = true → x ∈ D) (d : ℤ) (fuel : ℕ) :
    predBackRun P step d fuel ≤ D.card := by
  set k := predBackRun P step d fuel with hk
  have hmem : ∀ i : ℕ, i < k → (d - step * (i : ℤ)) ∈ D := by
    intro i hi
    exact hP _ (predBackRun_mem P step fuel d i hi)
  have : (Finset.range k).card ≤ D.card := by
    apply Finset.card_le_card_of_injOn (fun i : ℕ => d - step * (i : ℤ))
    · intro i hi
      exact hmem i (Finset.mem_range.mp hi)
    · intro i _ j _ hij
      have : step * (i : ℤ) = step * (j : ℤ) := by
        have := hij
        simp only at this
        omega
      have := mul_left_cancel₀ hstep this
      exact_mod_cast this
  simpa using this

lemma predBackRun_stop (P : ℤ → Bool) (step : ℤ) :
    ∀ (fuel : ℕ) (d : ℤ), predBackRun P step d fuel < fuel →
      P (d - step * (predBackRun P step d fuel : ℤ)) = false := by
  intro fuel
  induction fuel with
  | zero => intro d h; omega
  | succ n ih =>
    intro d h
    by_cases hP : P d = true
    · simp only [predBackRun, hP, if_true] at h ⊢
      have hlt : predBackRun P step (d - step) n < n := by omega
      have := ih (d - step) hlt
      convert this using 2
      push_cast
      ring
    · simp only [predBackRun, hP, if_false] at h ⊢
      simpa using hP

/-- For a walk through a finite set with fuel `card + 1`, the walk stops by
predicate failure: it covers an initial chain of set members and the next
step is outside the set. -/
lemma predBackRun_set_spec (S : Finset ℤ) (step : ℤ) (hstep : step ≠ 0) (d : ℤ) :
    (∀ i : ℕ, i < predBackRun (fun x => decide (x ∈ S)) step d (S.card + 1) →
      d - step * (i : ℤ) ∈ S) ∧
    d - step * ((predBackRun (fun x => decide (x ∈ S)) step d (S.card + 1) : ℕ) : ℤ) ∉ S := by
  constructor
  · intro i hi
    have := predBackRun_mem (fun x => decide (x ∈ S)) step (S.card + 1) d i hi
    simpa using this
  · have hle : predBackRun (fun x => decide (x ∈ S)) step d (S.card + 1) ≤ S.card :=
      predBackRun_le_of_subset _ S step hstep (fun x hx => by simpa using hx) d _
    have := predBackRun_stop (fun x => decide (x ∈ S)) step (S.card + 1) d (by omega)
    simpa using this

lemma scanGo_ge_mx : ∀ (l : List ℤ) (mx temp : ℕ) (prev : ℤ), mx ≤ scanGo mx temp prev l := by
  intro l
  induction l with
  | nil => intro mx temp prev; simp [scanGo]
  | cons d rest ih =>
    intro mx temp prev
    rw [scanGo]
    by_cases h : d - prev = 1
    · rw [if_pos h]; exact ih mx (temp + 1) d
    · rw [if_neg h]
      exact le_trans (le_max_left mx temp) (ih (max mx temp) 1 d)

lemma scanGo_ge_temp : ∀ (l : List ℤ) (mx temp : ℕ) (prev : ℤ),
    temp ≤ scanGo mx temp prev l := by
  intro l
  induction l with
  | nil => intro mx temp prev; simp [scanGo]
  | cons d rest ih =>
    intro mx temp prev
    rw [scanGo]
    by_cases h : d - prev = 1
    · rw [if_pos h]
      exact le_trans (Nat.le_succ temp) (ih mx (temp + 1) d)
    · rw [if_neg h]
      exact le_trans (le_max_right mx temp) (scanGo_ge_mx rest (max mx temp) 1 d)

lemma scanGo_chain_cont :
    ∀ (l : List ℤ) (mx temp : ℕ) (prev : ℤ) (j : ℕ),
      (prev :: l).Pairwise (· < ·) →
      (∀ i : ℕ, i < j → prev + 1 + (i : ℤ) ∈ l) →
      temp + j ≤ scanGo mx temp prev l := by
  intro l
  induction l with
  | nil =>
    intro mx temp prev j _ hchain
    cases j with
    | zero => simp [scanGo]
    | succ j' => exact absurd (hchain 0 (Nat.succ_pos j')) (List.not_mem_nil _)
  | cons a rest ih =>
    intro mx temp prev j hp hchain
    cases j with
    | zero => simpa using scanGo_ge_temp (a :: rest) mx temp prev
    | succ j' =>
      have hmem : prev + 1 ∈ a :: rest := by simpa using hchain 0 (Nat.succ_pos j')
      have hpa : ∀ y ∈ a :: rest, prev < y := (List.pairwise_cons.mp hp).1
      have hpar : (a :: rest).Pairwise (· < ·) := (List.pairwise_cons.mp hp).2
      have hmin : ∀ y ∈ rest, a < y := (List.pairwise_cons.mp hpar).1
      have ha : a = prev + 1 := by
        rcases List.mem_cons.mp hmem with h | h
        · omega
        · have h1 := hmin _ h
          have h2 := hpa a (List.mem_cons_self a rest)
          omega
      have hrest : ∀ i : ℕ, i < j' → a + 1 + (i : ℤ) ∈ rest := by
        intro i hi
        have : prev + 1 + ((i + 1 : ℕ) : ℤ) ∈ a :: rest := hchain (i + 1) (by omega)
        rcases List.mem_cons.mp this with h | h
        · push_cast at h; omega
        · have : prev + 1 + ((i + 1 : ℕ) : ℤ) = a + 1 + (i : ℤ) := by
            rw [ha]; push_cast; ring
          rwa [this] at h
      rw [scanGo]
      have hd : a - prev = 1 := by omega
      rw [if_pos hd]
      have := ih mx (temp + 1) a j' hpar hrest
      omega

lemma scanGo_chain_le :
    ∀ (l : List ℤ) (mx temp : ℕ) (prev : ℤ) (x : ℤ) (k : ℕ),
      (prev :: l).Pairwise (· < ·) →
      (∀ i : ℕ, i < k → x + (i : ℤ) ∈ l) →
      k ≤ scanGo mx temp prev l := by
  intro l
  induction l with
  | nil =>
    intro mx temp prev x k _ hchain
    cases k with
    | zero => omega
    | succ k' => exact absurd (hchain 0 (Nat.succ_pos k')) (List.not_mem_nil _)
  | cons a rest ih =>
    intro mx temp prev x k hp hchain
    cases k with
    | zero => omega
    | succ k' =>
      have hx : x ∈ a :: rest := by simpa using hchain 0 (Nat.succ_pos k')
      have hpar : (a :: rest).Pairwise (· < ·) := (List.pairwise_cons.mp hp).2
      have hmin : ∀ y ∈ rest, a < y := (List.pairwise_cons.mp hpar).1
      by_cases hxa : x = a
      · have hrest : ∀ i : ℕ, i < k' → a + 1 + (i : ℤ) ∈ rest := by
          intro i hi
          have hm : x + ((i + 1 : ℕ) : ℤ) ∈ a :: rest := hchain (i + 1) (by omega)
          rcases List.mem_cons.mp hm with h | h
          · push_cast at h; omega
          · have : x + ((i + 1 : ℕ) : ℤ) = a + 1 + (i : ℤ) := by
              rw [hxa]; push_cast; ring
            rwa [this] at h
        rw [scanGo]
        by_cases hd : a - prev = 1
        · rw [if_pos hd]
          have := scanGo_chain_cont rest mx (temp + 1) a k' hpar hrest
          omega
        · rw [if_neg hd]
          have := scanGo_chain_cont rest (max mx temp) 1 a k' hpar hrest
          omega
      · have hxrest : x ∈ rest := by
          rcases List.mem_cons.mp hx with h | h
          · exact absurd h hxa
          · exact h
        have hrest : ∀ i : ℕ, i < k' + 1 → x + (i : ℤ) ∈ rest := by
          intro i hi
          have hm : x + (i : ℤ) ∈ a :: rest := hchain i hi
          rcases List.mem_cons.mp hm with h | h
          · exfalso
            have h1 := hmin x hxrest
            have : (0 : ℤ) ≤ (i : ℤ) := Int.natCast_nonneg i
            omega
          · exact h
        rw [scanGo]
        by_cases hd : a - prev = 1
        · rw [if_pos hd]
          exact ih mx (temp + 1) a x (k' + 1) hpar hrest
        · rw [if_neg hd]
          exact ih (max mx temp) 1 a x (k' + 1) hpar hrest

/-- Any ascending chain of `k` consecutive members of `S` forces the
max-streak scan to report at least `k`. -/
lemma chain_le_scanMaxOf (S : Finset ℤ) (x : ℤ) (k : ℕ)
    (h : ∀ i : ℕ, i < k → x + (i : ℤ) ∈ S) : k ≤ scanMaxOf S := by
  cases hs : S.sort (· ≤ ·) with
  | nil =>
    cases k with
    | zero => omega
    | succ k' =>
      exfalso
      have hx : x ∈ S := by simpa using h 0 (Nat.succ_pos k')
      have : x ∈ S.sort (· ≤ ·) := (Finset.mem_sort _).mpr hx
      rw [hs] at this
      exact List.not_mem_nil _ this
  | cons d rest =>
    have hred : scanMaxOf S = scanGo 0 1 d rest := by
      unfold scanMaxOf
      rw [hs]
    rw [hred]
    have hsorted : (d :: rest).Sorted (· < ·) := by
      have h1 : (S.sort (· ≤ ·)).Sorted (· ≤ ·) := Finset.sort_sorted _ _
      have h2 : (S.sort (· ≤ ·)).Nodup := Finset.sort_nodup _ _
      rw [hs] at h1 h2
      exact List.Sorted.lt_of_le h1 h2
    have hmemlist : ∀ i : ℕ, i < k → x + (i : ℤ) ∈ d :: rest := by
      intro i hi
      have : x + (i : ℤ) ∈ S.sort (· ≤ ·) := (Finset.mem_sort _).mpr (h i hi)
      rwa [hs] at this
    cases k with
    | zero => omega
    | succ k' =>
      have hpar : (d :: rest).Pairwise (· < ·) := hsorted
      have hmin : ∀ y ∈ rest, d < y := (List.pairwise_cons.mp hpar).1
      by_cases hxd : x = d
      · have hrest : ∀ i : ℕ, i < k' → d + 1 + (i : ℤ) ∈ rest := by
          intro i hi
          have hm := hmemlist (i + 1) (by omega)
          rcases List.mem_cons.mp hm with hh | hh
          · push_cast at hh; omega
          · have : x + ((i + 1 : ℕ) : ℤ) = d + 1 + (i : ℤ) := by
              rw [hxd]; push_cast; ring
            rwa [this] at hh
        have := scanGo_chain_cont rest 0 1 d k' hpar hrest
        omega
      · have hxrest : x ∈ rest := by
          rcases List.mem_cons.mp (hmemlist 0 (Nat.succ_pos k')) with hh | hh
          · exact absurd (by simpa using hh) hxd
          · simpa using hh
        have hrest : ∀ i : ℕ, i < k' + 1 → x + (i : ℤ) ∈ rest := by
          intro i hi
          rcases List.mem_cons.mp (hmemlist i hi) with hh | hh
          · exfalso
            have h1 := hmin x hxrest
            have : (0 : ℤ) ≤ (i : ℤ) := Int.natCast_nonneg i
            omega
          · exact hh
        exact scanGo_chain_le rest 0 1 d x (k' + 1) hpar hrest

/-- Downward form: any backward chain of `k` consecutive members of `S`
bounds the scan from below. -/
lemma downchain_le_scanMaxOf (S : Finset ℤ) (y : ℤ) (k : ℕ)
    (h : ∀ i : ℕ, i < k → y - (i : ℤ) ∈ S) : k ≤ scanMaxOf S := by
  cases k with
  | zero => omega
  | succ m =>
    apply chain_le_scanMaxOf S (y - (m : ℤ)) (m + 1)
    intro i hi
    have hmi : m - i < m + 1 := by omega
    have := h (m - i) hmi
    have hcast : ((m - i : ℕ) : ℤ) = (m : ℤ) - (i : ℤ) := by
      have : i ≤ m := by omega
      push_cast [this]
      ring
    rw [hcast] at this
    have heq : y - ((m : ℤ) - (i : ℤ)) = y - (m : ℤ) + (i : ℤ) := by ring
    rwa [heq] at this

/-- C2 (code bug on the signature conjunct): the source `isDateEditable`
takes only the date string and reads the system clock internally, contrary to
the claim's (and the spec's) requirement that the reference instant be an
explicit parameter.  The claim's behavioural content is right and is proved
here over the embedding in which those internal clock reads are reified as
the explicit `now`: the result is false for every date after now's calendar
day, true for now's day, true for the previous day exactly when now's local
hour is strictly before 6, and false for every earlier date. -/
theorem c2_isDateEditable_spec (d : ℤ) (now : Instant) :
    (now.day < d → isDateEditable d now = false) ∧
    (d = now.day → isDateEditable d now = true) ∧
    (d = now.day - 1 → (isDateEditable d now = true ↔ now.hour < 6)) ∧
    (d < now.day - 1 → isDateEditable d now = false) := by
  refine ⟨?_, ?_, ?_, ?_⟩ <;> intro h
  · unfold isDateEditable
    rw [if_pos h]
  · unfold isDateEditable
    rw [if_neg (by omega : ¬ now.day < d), if_pos h]
  · unfold isDateEditable
    rw [if_neg (by omega : ¬ now.day < d), if_neg (by omega : ¬ d = now.day), if_pos h]
    exact decide_eq_true_iff
  · unfold isDateEditable
    rw [if_neg (by omega : ¬ now.day < d), if_neg (by omega : ¬ d = now.day),
      if_neg (by omega : ¬ d = now.day - 1)]

theorem c2_isDateEditable_spec_witness :
    isDateEditable 9 ⟨10, 5⟩ = true ∧ isDateEditable 9 ⟨10, 6⟩ = false ∧
    isDateEditable 11 ⟨10, 12⟩ = false ∧ isDateEditable 10 ⟨10, 23⟩ = true :=
  ⟨((c2_isDateEditable_spec 9 ⟨10, 5⟩).2.2.1 (by decide)).mpr (by decide),
    by decide, by decide, by decide⟩

/-- C3: the effective daily goal is the `targetAtEntry` snapshot when present,
else 1 for binary habits and `weeklyGoal / 7` for numeric ones; completion is
`value ≥ 1` for binary habits and `value ≥ 0.8 ·` effective daily goal for
numeric ones (so a numeric entry of 8 against daily goal 10 is complete while
7 is not). -/
theorem c3_goal_resolution_spec (entry : DailyEntry) (habit : Habit) :
    (∀ t : ℚ, entry.targetAtEntry = some t → getEffectiveDailyGoal entry habit = t) ∧
    (entry.targetAtEntry = none → habit.type = HabitType.binary →
      getEffectiveDailyGoal entry habit = 1) ∧
    (entry.targetAtEntry = none → habit.type = HabitType.numeric →
      getEffectiveDailyGoal entry habit = habit.weeklyGoal / 7) ∧
    (habit.type = HabitType.binary →
      (isEntryComplete entry habit = true ↔ 1 ≤ entry.value)) ∧
    (habit.type = HabitType.numeric →
      (isEntryComplete entry habit = true ↔
        getEffectiveDailyGoal entry habit * (4/5) ≤ entry.value)) := by
  refine ⟨?_, ?_, ?_, ?_, ?_⟩
  · intro t ht
    simp [getEffectiveDailyGoal, ht]
  · intro ht htype
    simp [getEffectiveDailyGoal, ht, htype]
  · intro ht htype
    simp [getEffectiveDailyGoal, ht, htype]
  · intro htype
    simp [isEntryComplete, htype]
  · intro htype
    simp [isEntryComplete, htype]

theorem c3_goal_resolution_spec_witness :
    isEntryComplete ⟨"e8", "h", 0, 8, none, ⟨0, 0⟩, ⟨0, 0⟩⟩
      ⟨"h", "", HabitType.numeric, 70, "", ⟨0, 0⟩, false, 0⟩ = true ∧
    isEntryComplete ⟨"e7", "h", 0, 7, none, ⟨0, 0⟩, ⟨0, 0⟩⟩
      ⟨"h", "", HabitType.numeric, 70, "", ⟨0, 0⟩, false, 0⟩ = false :=
  ⟨((c3_goal_resolution_spec ⟨"e8", "h", 0, 8, none, ⟨0, 0⟩, ⟨0, 0⟩⟩
      ⟨"h", "", HabitType.numeric, 70, "", ⟨0, 0⟩, false, 0⟩).2.2.2.2 rfl).mpr
      (by norm_num [getEffectiveDailyGoal]),
    by norm_num [isEntryComplete, getEffectiveDailyGoal]⟩

/-- C4: `calculateWeeklyStats` pro-rates the goal over the active days (the
week days on/after the habit's creation day): the internal goal is
`(weeklyGoal/7) · activeDaysCount` when any day is active and `weeklyGoal`
otherwise, the output `goal` being its 2-decimal rounding; a binary habit
created on day 4 of the week with weeklyGoal 7 gets goal 4, not 7. -/
theorem c4_prorated_goal_spec (habit : Habit) (entries : List DailyEntry) (ws today : ℤ) :
    ((calculateWeeklyStats habit entries ws today).goal = round2 (proratedGoal habit ws)) ∧
    (0 < (activeDaysOf habit ws).length →
      proratedGoal habit ws = habit.weeklyGoal / 7 * ((activeDaysOf habit ws).length : ℚ)) ∧
    ((activeDaysOf habit ws).length = 0 → proratedGoal habit ws = habit.weeklyGoal) ∧
    (activeDaysOf habit ws =
      (weekDates ws).filter (fun x => decide (habit.createdAt.day ≤ x))) ∧
    (calculateWeeklyStats ⟨"h", "", HabitType.binary, 7, "", ⟨3, 0⟩, false, 0⟩ [] 0 3).goal
      = 4 := by
  refine ⟨rfl, ?_, ?_, rfl, ?_⟩
  · intro h
    unfold proratedGoal
    rw [if_pos h]
  · intro h
    unfold proratedGoal
    rw [if_neg (by omega)]
  · have hlen :
        (activeDaysOf ⟨"h", "", HabitType.binary, 7, "", ⟨3, 0⟩, false, 0⟩ 0).length = 4 := by
      decide
    show round2 (proratedGoal ⟨"h", "", HabitType.binary, 7, "", ⟨3, 0⟩, false, 0⟩ 0) = 4
    unfold proratedGoal
    rw [hlen]
    norm_num [round2, jsRound]

theorem c4_prorated_goal_spec_witness :
    0 < (activeDaysOf ⟨"h", "", HabitType.binary, 7, "", ⟨3, 0⟩, false, 0⟩ 0).length ∧
    proratedGoal ⟨"h", "", HabitType.binary, 7, "", ⟨3, 0⟩, false, 0⟩ 0 =
      (7 : ℚ) / 7 *
        (((activeDaysOf ⟨"h", "", HabitType.binary, 7, "", ⟨3, 0⟩, false, 0⟩ 0).length : ℕ) : ℚ) :=
  ⟨by decide,
    (c4_prorated_goal_spec ⟨"h", "", HabitType.binary, 7, "", ⟨3, 0⟩, false, 0⟩ [] 0 3).2.1
      (by decide)⟩

/-- C5 (confirmed): a day is counted in `weeklyPerfectDays` only if at least
one habit existed on it and every habit existing on it (creation day on or
before the day) has an entry for that day satisfying `isEntryComplete`; a day
with zero existing habits is never counted, and with the empty habit list no
day of any week is ever counted. -/
theorem c5_perfect_days_spec (habits : List Habit) (entries : List DailyEntry)
    (ws today d : ℤ) :
    ((calculateOverallStats habits entries ws today).weeklyPerfectDays =
      ((weekDates ws).filter (fun x => overallPerfectDay habits entries today x)).length) ∧
    (overallPerfectDay habits entries today d = true →
      existingHabitsOn habits d ≠ [] ∧
      ∀ h ∈ habits, h.createdAt.day ≤ d →
        ∃ e ∈ entries, e.habitId = h.id ∧ e.date = d ∧ isEntryComplete e h = true) ∧
    (existingHabitsOn habits d = [] → overallPerfectDay habits entries today d = false) ∧
    (habits = [] → (calculateOverallStats habits entries ws today).weeklyPerfectDays = 0) := by
  refine ⟨rfl, ?_, ?_, ?_⟩
  · intro hP
    unfold overallPerfectDay at hP
    by_cases h1 : today < d
    · rw [if_pos h1] at hP
      exact absurd hP (by simp)
    rw [if_neg h1] at hP
    by_cases h2 : (existingHabitsOn habits d).isEmpty = true
    · rw [if_pos h2] at hP
      exact absurd hP (by simp)
    rw [if_neg h2] at hP
    constructor
    · intro hnil
      rw [hnil] at h2
      exact h2 rfl
    · intro h hmem hcr
      have hin : h ∈ existingHabitsOn habits d :=
        List.mem_filter.mpr ⟨hmem, by simpa using hcr⟩
      have hall := List.all_eq_true.mp hP h hin
      cases hfind : entries.find? (fun e => decide (e.habitId = h.id ∧ e.date = d)) with
      | none =>
        rw [hfind] at hall
        simp at hall
      | some e =>
        rw [hfind] at hall
        have hmem' := List.mem_of_find?_eq_some hfind
        have hpred := List.find?_some hfind
        simp only [decide_eq_true_eq] at hpred
        exact ⟨e, hmem', hpred.1, hpred.2, hall⟩
  · intro hnil
    simp [overallPerfectDay, hnil]
  · intro h
    subst h
    have hfalse : ∀ x : ℤ, overallPerfectDay [] entries today x = false := by
      intro x
      simp [overallPerfectDay, existingHabitsOn]
    show (List.filter (fun x => overallPerfectDay [] entries today x) (weekDates ws)).length = 0
    simp [hfalse]

theorem c5_perfect_days_spec_witness :
    overallPerfectDay [⟨"h", "", HabitType.binary, 7, "", ⟨0, 0⟩, false, 0⟩]
      [⟨"h_0", "h", 0, 1, none, ⟨0, 0⟩, ⟨0, 0⟩⟩] 0 0 = true ∧
    (existingHabitsOn [⟨"h", "", HabitType.binary, 7, "", ⟨0, 0⟩, false, 0⟩] 0 ≠ [] ∧
      ∀ h ∈ [(⟨"h", "", HabitType.binary, 7, "", ⟨0, 0⟩, false, 0⟩ : Habit)],
        h.createdAt.day ≤ 0 →
        ∃ e ∈ [(⟨"h_0", "h", 0, 1, none, ⟨0, 0⟩, ⟨0, 0⟩⟩ : DailyEntry)],
          e.habitId = h.id ∧ e.date = 0 ∧ isEntryComplete e h = true) :=
  ⟨by decide,
    (c5_perfect_days_spec [⟨"h", "", HabitType.binary, 7, "", ⟨0, 0⟩, false, 0⟩]
      [⟨"h_0", "h", 0, 1, none, ⟨0, 0⟩, ⟨0, 0⟩⟩] 0 0 0).2.1 (by decide)⟩

/-- C6 (amended): `completionPercentage` is `min(100, round(total/goal·100))`
whenever the pro-rated goal is positive, and is 0 whenever `weeklyGoal ≤ 0`
(the division is guarded by `goal > 0`, so no division by zero occurs); the
`goal` output is 0 when `weeklyGoal = 0`, but for `weeklyGoal < 0` it is the
2-decimal rounding of the (negative) pro-rated value, not 0. -/
theorem c6_percentage_spec (habit : Habit) (entries : List DailyEntry) (ws today : ℤ) :
    (0 < proratedGoal habit ws →
      (calculateWeeklyStats habit entries ws today).completionPercentage =
        min 100 (jsRound (weekEntriesTotal habit entries ws / proratedGoal habit ws * 100))) ∧
    (habit.weeklyGoal ≤ 0 →
      (calculateWeeklyStats habit entries ws today).completionPercentage = 0) ∧
    (habit.weeklyGoal = 0 → (calculateWeeklyStats habit entries ws today).goal = 0) ∧
    ((calculateWeeklyStats habit entries ws today).goal = round2 (proratedGoal habit ws)) := by
  have heq : (calculateWeeklyStats habit entries ws today).completionPercentage =
      if 0 < proratedGoal habit ws then
        min 100 (jsRound (weekEntriesTotal habit entries ws / proratedGoal habit ws * 100))
      else 0 := rfl
  refine ⟨?_, ?_, ?_, rfl⟩
  · intro h
    rw [heq, if_pos h]
  · intro h
    have hg : proratedGoal habit ws ≤ 0 := by
      unfold proratedGoal
      split_ifs with hlen
      · have hcast : (0 : ℚ) ≤ ((activeDaysOf habit ws).length : ℚ) := Nat.cast_nonneg _
        have h7 : habit.weeklyGoal / 7 ≤ 0 := by linarith
        nlinarith
      · exact h
    rw [heq, if_neg (not_lt.mpr hg)]
  · intro h
    have hg0 : proratedGoal habit ws = 0 := by
      simp [proratedGoal, h]
    show round2 (proratedGoal habit ws) = 0
    rw [hg0]
    norm_num [round2, jsRound]

theorem c6_percentage_spec_witness :
    (⟨"h", "", HabitType.binary, -7, "", ⟨0, 0⟩, false, 0⟩ : Habit).weeklyGoal ≤ 0 ∧
    (calculateWeeklyStats ⟨"h", "", HabitType.binary, -7, "", ⟨0, 0⟩, false, 0⟩ [] 0 0).completionPercentage = 0 :=
  ⟨by norm_num,
    (c6_percentage_spec ⟨"h", "", HabitType.binary, -7, "", ⟨0, 0⟩, false, 0⟩ [] 0 0).2.1
      (by norm_num)⟩

/-- C6 counterexample: with `weeklyGoal = -7` the returned `goal` is `-7`,
not 0, refuting the claim that a habit with `weeklyGoal ≤ 0` produces a goal
output of 0. -/
theorem c6_counterexample :
    (calculateWeeklyStats ⟨"h", "", HabitType.binary, -7, "", ⟨0, 0⟩, false, 0⟩ [] 0 0).goal
      = -7 ∧
    (calculateWeeklyStats ⟨"h", "", HabitType.binary, -7, "", ⟨0, 0⟩, false, 0⟩ [] 0 0).goal
      ≠ 0 ∧
    (⟨"h", "", HabitType.binary, -7, "", ⟨0, 0⟩, false, 0⟩ : Habit).weeklyGoal ≤ 0 := by
  have hlen :
      (activeDaysOf ⟨"h", "", HabitType.binary, -7, "", ⟨0, 0⟩, false, 0⟩ 0).length = 7 := by
    decide
  have hgoal :
      (calculateWeeklyStats ⟨"h", "", HabitType.binary, -7, "", ⟨0, 0⟩, false, 0⟩ [] 0 0).goal
        = -7 := by
    show round2 (proratedGoal ⟨"h", "", HabitType.binary, -7, "", ⟨0, 0⟩, false, 0⟩ 0) = -7
    unfold proratedGoal
    rw [hlen]
    norm_num [round2, jsRound]
  refine ⟨hgoal, ?_, by norm_num⟩
  rw [hgoal]
  norm_num

/-- C7: upserting an entry whose `(habitId, date)` key already exists leaves
the habit list untouched and rewrites exactly the stored entry with that key:
its `value` is replaced, its `updatedAt` is stamped with `now`, its
`targetAtEntry` is overwritten only when the update supplies one (`Option.or`),
and its `id`, `habitId`, `date` and `createdAt` — and every other stored
entry — are unchanged (`List.set` of the single updated record). -/
theorem c7_upsert_frame (data : StorageData) (entry : DailyEntry) (now : Instant)
    (h : ∃ x ∈ data.entries, x.habitId = entry.habitId ∧ x.date = entry.date) :
    (upsertEntryLocal data entry now).habits = data.habits ∧
    ∃ (i : ℕ) (old : DailyEntry),
      data.entries[i]? = some old ∧ old.habitId = entry.habitId ∧ old.date = entry.date ∧
      (upsertEntryLocal data entry now).entries =
        data.entries.set i { old with
          value := entry.value
          targetAtEntry := entry.targetAtEntry.or old.targetAtEntry
          updatedAt := now } := by
  refine ⟨rfl, ?_⟩
  show ∃ (i : ℕ) (old : DailyEntry), _
  have main : ∀ l : List DailyEntry,
      (∃ x ∈ l, x.habitId = entry.habitId ∧ x.date = entry.date) →
      ∃ (i : ℕ) (old : DailyEntry),
        l[i]? = some old ∧ old.habitId = entry.habitId ∧ old.date = entry.date ∧
        upsertGo entry now l =
          l.set i { old with
            value := entry.value
            targetAtEntry := entry.targetAtEntry.or old.targetAtEntry
            updatedAt := now } := by
    intro l
    induction l with
    | nil =>
      rintro ⟨x, hx, -⟩
      exact absurd hx (List.not_mem_nil x)
    | cons e rest ih =>
      rintro ⟨x, hx, hkey⟩
      by_cases he : e.habitId = entry.habitId ∧ e.date = entry.date
      · refine ⟨0, e, by simp, he.1, he.2, ?_⟩
        unfold upsertGo
        rw [if_pos he]
        rfl
      · have hxrest : x ∈ rest := by
          rcases List.mem_cons.mp hx with hh | hh
          · exact absurd (hh ▸ hkey) he
          · exact hh
        obtain ⟨i, old, hget, h1, h2, heq⟩ := ih ⟨x, hxrest, hkey⟩
        refine ⟨i + 1, old, by simpa using hget, h1, h2, ?_⟩
        unfold upsertGo
        rw [if_neg he, heq]
        rfl
  exact main data.entries h

theorem c7_upsert_frame_witness :
    (upsertEntryLocal ⟨[], [⟨"h_3", "h", 3, 1, some 2, ⟨3, 8⟩, ⟨3, 8⟩⟩]⟩
        ⟨"x", "h", 3, 5, none, ⟨4, 9⟩, ⟨4, 9⟩⟩ ⟨4, 10⟩).habits = [] ∧
    ∃ (i : ℕ) (old : DailyEntry),
      [(⟨"h_3", "h", 3, 1, some 2, ⟨3, 8⟩, ⟨3, 8⟩⟩ : DailyEntry)][i]? = some old ∧
      old.habitId = "h" ∧ old.date = 3 ∧
      (upsertEntryLocal ⟨[], [⟨"h_3", "h", 3, 1, some 2, ⟨3, 8⟩, ⟨3, 8⟩⟩]⟩
          ⟨"x", "h", 3, 5, none, ⟨4, 9⟩, ⟨4, 9⟩⟩ ⟨4, 10⟩).entries =
        [(⟨"h_3", "h", 3, 1, some 2, ⟨3, 8⟩, ⟨3, 8⟩⟩ : DailyEntry)].set i
          { old with
            value := 5
            targetAtEntry := (none : Option ℚ).or old.targetAtEntry
            updatedAt := ⟨4, 10⟩ } :=
  c7_upsert_frame ⟨[], [⟨"h_3", "h", 3, 1, some 2, ⟨3, 8⟩, ⟨3, 8⟩⟩]⟩
    ⟨"x", "h", 3, 5, none, ⟨4, 9⟩, ⟨4, 9⟩⟩ ⟨4, 10⟩
    ⟨⟨"h_3", "h", 3, 1, some 2, ⟨3, 8⟩, ⟨3, 8⟩⟩, List.mem_singleton.mpr rfl, rfl, rfl⟩

lemma habitStreak_currentStreak_eq (habitId : String) (habit : Habit)
    (entries : List DailyEntry) (today : ℤ) :
    (calculateHabitStreak habitId habit entries today).currentStreak =
      if (entries.filter (fun e => decide (e.habitId = habitId))).isEmpty then 0
      else
        if today ∈ successDatesOf habit (entries.filter (fun e => decide (e.habitId = habitId)))
        then
          predBackRun
            (fun d => decide (d ∈
              successDatesOf habit (entries.filter (fun e => decide (e.habitId = habitId)))))
            1 today
            ((successDatesOf habit
              (entries.filter (fun e => decide (e.habitId = habitId)))).card + 1)
        else
          if today - 1 ∈
              successDatesOf habit (entries.filter (fun e => decide (e.habitId = habitId))) then
            predBackRun
              (fun d => decide (d ∈
                successDatesOf habit (entries.filter (fun e => decide (e.habitId = habitId)))))
              1 (today - 1)
              ((successDatesOf habit
                (entries.filter (fun e => decide (e.habitId = habitId)))).card + 1)
          else 0 := by
  unfold calculateHabitStreak
  dsimp only
  split_ifs <;> rfl

lemma habitStreak_maxStreak_eq (habitId : String) (habit : Habit)
    (entries : List DailyEntry) (today : ℤ) :
    (calculateHabitStreak habitId habit entries today).maxStreak =
      if (entries.filter (fun e => decide (e.habitId = habitId))).isEmpty then 0
      else
        scanMaxOf
          (successDatesOf habit (entries.filter (fun e => decide (e.habitId = habitId)))) := by
  unfold calculateHabitStreak
  dsimp only
  split_ifs <;> rfl

/-- C8: the current streak is 0 whenever neither today nor yesterday is a
success date; otherwise it is the length of the maximal backward run of
consecutive success dates ending at today (when today is a success) or at
yesterday: every day within the reported streak is a success and the day
just beyond it is not; with success dates `{today, today-1, today-2}` and
`today-3` missing, the current streak is exactly 3 and the max streak is at
least 3. -/
theorem c8_habit_streak_spec (habitId : String) (habit : Habit) (entries : List DailyEntry)
    (today : ℤ) :
    (today ∉ successDatesOf habit (entries.filter (fun e => decide (e.habitId = habitId))) →
      today - 1 ∉ successDatesOf habit (entries.filter (fun e => decide (e.habitId = habitId))) →
      (calculateHabitStreak habitId habit entries today).currentStreak = 0) ∧
    (today ∈ successDatesOf habit (entries.filter (fun e => decide (e.habitId = habitId))) →
      ((∀ i : ℕ, i < (calculateHabitStreak habitId habit entries today).currentStreak →
        today - (i : ℤ) ∈
          successDatesOf habit (entries.filter (fun e => decide (e.habitId = habitId)))) ∧
        today - ((calculateHabitStreak habitId habit entries today).currentStreak : ℤ) ∉
          successDatesOf habit (entries.filter (fun e => decide (e.habitId = habitId))))) ∧
    (today ∉ successDatesOf habit (entries.filter (fun e => decide (e.habitId = habitId))) →
      today - 1 ∈ successDatesOf habit (entries.filter (fun e => decide (e.habitId = habitId))) →
      ((∀ i : ℕ, i < (calculateHabitStreak habitId habit entries today).currentStreak →
        today - 1 - (i : ℤ) ∈
          successDatesOf habit (entries.filter (fun e => decide (e.habitId = habitId)))) ∧
        today - 1 - ((calculateHabitStreak habitId habit entries today).currentStreak : ℤ) ∉
          successDatesOf habit (entries.filter (fun e => decide (e.habitId = habitId))))) ∧
    ((calculateHabitStreak "h" ⟨"h", "", HabitType.binary, 7, "", ⟨0, 0⟩, false, 0⟩
      [⟨"a", "h", 10, 1, none, ⟨0, 0⟩, ⟨0, 0⟩⟩, ⟨"b", "h", 9, 1, none, ⟨0, 0⟩, ⟨0, 0⟩⟩,
        ⟨"c", "h", 8, 1, none, ⟨0, 0⟩, ⟨0, 0⟩⟩] 10).currentStreak = 3 ∧
      3 ≤ (calculateHabitStreak "h" ⟨"h", "", HabitType.binary, 7, "", ⟨0, 0⟩, false, 0⟩
        [⟨"a", "h", 10, 1, none, ⟨0, 0⟩, ⟨0, 0⟩⟩, ⟨"b", "h", 9, 1, none, ⟨0, 0⟩, ⟨0, 0⟩⟩,
          ⟨"c", "h", 8, 1, none, ⟨0, 0⟩, ⟨0, 0⟩⟩] 10).maxStreak) := by
  refine ⟨?_, ?_, ?_, ?_, ?_⟩
  · intro h1 h2
    rw [habitStreak_currentStreak_eq]
    split_ifs <;> first | rfl | exact absurd (by assumption) h1 | exact absurd (by assumption) h2
  · intro hin
    by_cases he : (entries.filter (fun e => decide (e.habitId = habitId))).isEmpty = true
    · exfalso
      have hnil : entries.filter (fun e => decide (e.habitId = habitId)) = [] :=
        List.isEmpty_iff.mp he
      rw [hnil] at hin
      exact absurd hin (Finset.not_mem_empty today)
    · rw [habitStreak_currentStreak_eq, if_neg he, if_pos hin]
      have hspec := predBackRun_set_spec
        (successDatesOf habit (entries.filter (fun e => decide (e.habitId = habitId)))) 1
        one_ne_zero today
      exact ⟨fun i hi => by simpa using hspec.1 i hi, by simpa using hspec.2⟩
  · intro hnin hin
    by_cases he : (entries.filter (fun e => decide (e.habitId = habitId))).isEmpty = true
    · exfalso
      have hnil : entries.filter (fun e => decide (e.habitId = habitId)) = [] :=
        List.isEmpty_iff.mp he
      rw [hnil] at hin
      exact absurd hin (Finset.not_mem_empty (today - 1))
    · rw [habitStreak_currentStreak_eq, if_neg he, if_neg hnin, if_pos hin]
      have hspec := predBackRun_set_spec
        (successDatesOf habit (entries.filter (fun e => decide (e.habitId = habitId)))) 1
        one_ne_zero (today - 1)
      exact ⟨fun i hi => by simpa using hspec.1 i hi, by simpa using hspec.2⟩
  · have hSc : successDatesOf ⟨"h", "", HabitType.binary, 7, "", ⟨0, 0⟩, false, 0⟩
        ([⟨"a", "h", 10, 1, none, ⟨0, 0⟩, ⟨0, 0⟩⟩, ⟨"b", "h", 9, 1, none, ⟨0, 0⟩, ⟨0, 0⟩⟩,
          ⟨"c", "h", 8, 1, none, ⟨0, 0⟩, ⟨0, 0⟩⟩].filter (fun e => decide (e.habitId = "h")))
        = ({8, 9, 10} : Finset ℤ) := by decide
    rw [habitStreak_currentStreak_eq, if_neg (by decide), if_pos (by rw [hSc]; decide), hSc]
    decide
  · have hSc : successDatesOf ⟨"h", "", HabitType.binary, 7, "", ⟨0, 0⟩, false, 0⟩
        ([⟨"a", "h", 10, 1, none, ⟨0, 0⟩, ⟨0, 0⟩⟩, ⟨"b", "h", 9, 1, none, ⟨0, 0⟩, ⟨0, 0⟩⟩,
          ⟨"c", "h", 8, 1, none, ⟨0, 0⟩, ⟨0, 0⟩⟩].filter (fun e => decide (e.habitId = "h")))
        = ({8, 9, 10} : Finset ℤ) := by decide
    rw [habitStreak_maxStreak_eq, if_neg (by decide), hSc]
    apply downchain_le_scanMaxOf ({8, 9, 10} : Finset ℤ) 10 3
    intro i hi
    interval_cases i <;> decide

theorem c8_habit_streak_spec_witness :
    (10 : ℤ) ∈ successDatesOf ⟨"h", "", HabitType.binary, 7, "", ⟨0, 0⟩, false, 0⟩
      ([⟨"a", "h", 10, 1, none, ⟨0, 0⟩, ⟨0, 0⟩⟩, ⟨"b", "h", 9, 1, none, ⟨0, 0⟩, ⟨0, 0⟩⟩,
        ⟨"c", "h", 8, 1, none, ⟨0, 0⟩, ⟨0, 0⟩⟩].filter (fun e => decide (e.habitId = "h"))) ∧
    (10 : ℤ) -
        ((calculateHabitStreak "h" ⟨"h", "", HabitType.binary, 7, "", ⟨0, 0⟩, false, 0⟩
          [⟨"a", "h", 10, 1, none, ⟨0, 0⟩, ⟨0, 0⟩⟩, ⟨"b", "h", 9, 1, none, ⟨0, 0⟩, ⟨0, 0⟩⟩,
            ⟨"c", "h", 8, 1, none, ⟨0, 0⟩, ⟨0, 0⟩⟩] 10).currentStreak : ℤ) ∉
      successDatesOf ⟨"h", "", HabitType.binary, 7, "", ⟨0, 0⟩, false, 0⟩
        ([⟨"a", "h", 10, 1, none, ⟨0, 0⟩, ⟨0, 0⟩⟩, ⟨"b", "h", 9, 1, none, ⟨0, 0⟩, ⟨0, 0⟩⟩,
          ⟨"c", "h", 8, 1, none, ⟨0, 0⟩, ⟨0, 0⟩⟩].filter (fun e => decide (e.habitId = "h"))) :=
  ⟨by decide,
    ((c8_habit_streak_spec "h" ⟨"h", "", HabitType.binary, 7, "", ⟨0, 0⟩, false, 0⟩
      [⟨"a", "h", 10, 1, none, ⟨0, 0⟩, ⟨0, 0⟩⟩, ⟨"b", "h", 9, 1, none, ⟨0, 0⟩, ⟨0, 0⟩⟩,
        ⟨"c", "h", 8, 1, none, ⟨0, 0⟩, ⟨0, 0⟩⟩] 10).2.1 (by decide)).2⟩

/-- C10: none of the three streak calculators ever reports a current streak
exceeding its reported max streak: for `calculateHabitStreak` the backward
run ending at today/yesterday is a consecutive run of success dates, so the
longest-run scan reports at least its length; both `calculateOverallStreak`
variants take an explicit `max` with the current streak. -/
theorem c10_current_le_max (habitId : String) (habit : Habit) (habits : List Habit)
    (entries : List DailyEntry) (today : ℤ) :
    (calculateHabitStreak habitId habit entries today).currentStreak ≤
      (calculateHabitStreak habitId habit entries today).maxStreak ∧
    (calculateOverallStreakDays habits entries today).currentStreak ≤
      (calculateOverallStreakDays habits entries today).maxStreak ∧
    (calculateOverallStreakWeeks habits entries today).currentStreak ≤
      (calculateOverallStreakWeeks habits entries today).maxStreak := by
  refine ⟨?_, ?_, ?_⟩
  · rw [habitStreak_currentStreak_eq, habitStreak_maxStreak_eq]
    by_cases he : (entries.filter (fun e => decide (e.habitId = habitId))).isEmpty = true
    · rw [if_pos he, if_pos he]
    · rw [if_neg he, if_neg he]
      split_ifs with h1 h2
      · apply downchain_le_scanMaxOf _ today
        intro i hi
        have := (predBackRun_set_spec
          (successDatesOf habit (entries.filter (fun e => decide (e.habitId = habitId)))) 1
          one_ne_zero today).1 i hi
        simpa using this
      · apply downchain_le_scanMaxOf _ (today - 1)
        intro i hi
        have := (predBackRun_set_spec
          (successDatesOf habit (entries.filter (fun e => decide (e.habitId = habitId)))) 1
          one_ne_zero (today - 1)).1 i hi
        simpa using this
      · exact Nat.zero_le _
  · unfold calculateOverallStreakDays
    dsimp only
    split_ifs <;> first | exact le_rfl | exact le_max_right _ _
  · unfold calculateOverallStreakWeeks
    dsimp only
    split_ifs <;> first | exact le_rfl | exact le_max_right _ _

/-- C1 (amended): in the week-based `calculateOverallStreak`, a week is
complete when it has entries and every habit accumulated at least 80% of its
weekly goal in it; the backward week walk from the last fully-elapsed week
runs only when the most recent complete week is exactly that week, in which
case currentStreak is 7 per consecutive complete week plus the elapsed
day-of-week count (Monday=1) when the current week is on-track by the pacing
rule; otherwise (e.g. when the current week is itself already complete) only
the on-track day-of-week credit is reported.  Two complete prior weeks with
an on-track current week at day-of-week 3 still yield 7 + 7 + 3 = 17. -/
theorem c1_overall_streak_weeks_amended (habits : List Habit) (entries : List DailyEntry)
    (today : ℤ) (hne : habits ≠ []) :
    (∀ w : ℤ, w ∈ completeWeeksOf habits entries ↔
      (w ∈ entryWeekKeys entries ∧
        ∀ h ∈ habits, h.weeklyGoal * (4/5) ≤ weekTotal entries w h.id)) ∧
    ((completeWeeksOf habits entries).max = ((weekStartOf today - 7 : ℤ) : WithBot ℤ) →
      ∃ n : ℕ,
        (calculateOverallStreakWeeks habits entries today).currentStreak =
          7 * n + (if (calculateOverallStreakWeeks habits entries today).isCurrentWeekOnTrack
            then (today - weekStartOf today + 1).toNat else 0) ∧
        (∀ i : ℕ, i < n → weekStartOf today - 7 - 7 * (i : ℤ) ∈ completeWeeksOf habits entries) ∧
        weekStartOf today - 7 - 7 * (n : ℤ) ∉ completeWeeksOf habits entries) ∧
    ((completeWeeksOf habits entries).max ≠ ((weekStartOf today - 7 : ℤ) : WithBot ℤ) →
      (calculateOverallStreakWeeks habits entries today).currentStreak =
        (if (calculateOverallStreakWeeks habits entries today).isCurrentWeekOnTrack
          then (today - weekStartOf today + 1).toNat else 0)) ∧
    (calculateOverallStreakWeeks [⟨"h", "", HabitType.numeric, 7, "", ⟨0, 0⟩, false, 0⟩]
      [⟨"a", "h", 0, 7, none, ⟨0, 0⟩, ⟨0, 0⟩⟩, ⟨"b", "h", 7, 7, none, ⟨0, 0⟩, ⟨0, 0⟩⟩,
        ⟨"c", "h", 14, 3, none, ⟨0, 0⟩, ⟨0, 0⟩⟩] 16).currentStreak = 17 := by
  have hcond : ¬ habits.isEmpty = true := by
    rcases habits with _ | ⟨a, l⟩
    · exact absurd rfl hne
    · simp
  have hot : (calculateOverallStreakWeeks habits entries today).isCurrentWeekOnTrack =
      decide (weeklyStatusOf habits (fun hid => weekTotal entries (weekStartOf today) hid)
        (today - weekStartOf today + 1) = WeeklyStatus.onTrack) := by
    unfold calculateOverallStreakWeeks
    rw [if_neg hcond]
  have hcur : (calculateOverallStreakWeeks habits entries today).currentStreak =
      if (completeWeeksOf habits entries).max = ((weekStartOf today - 7 : ℤ) : WithBot ℤ) then
        7 * predBackRun (fun w => decide (w ∈ completeWeeksOf habits entries)) 7
          (weekStartOf today - 7) ((completeWeeksOf habits entries).card + 1) +
          (if decide (weeklyStatusOf habits (fun hid => weekTotal entries (weekStartOf today) hid)
              (today - weekStartOf today + 1) = WeeklyStatus.onTrack)
            then (today - weekStartOf today + 1).toNat else 0)
      else
        if decide (weeklyStatusOf habits (fun hid => weekTotal entries (weekStartOf today) hid)
            (today - weekStartOf today + 1) = WeeklyStatus.onTrack)
          then (today - weekStartOf today + 1).toNat else 0 := by
    unfold calculateOverallStreakWeeks
    rw [if_neg hcond]
  refine ⟨?_, ?_, ?_, ?_⟩
  · intro w
    simp [completeWeeksOf, Finset.mem_filter, List.all_eq_true]
  · intro hmax
    refine ⟨predBackRun (fun w => decide (w ∈ completeWeeksOf habits entries)) 7
      (weekStartOf today - 7) ((completeWeeksOf habits entries).card + 1), ?_, ?_, ?_⟩
    · rw [hcur, if_pos hmax, hot]
    · intro i hi
      exact (predBackRun_set_spec (completeWeeksOf habits entries) 7 (by norm_num)
        (weekStartOf today - 7)).1 i hi
    · exact (predBackRun_set_spec (completeWeeksOf habits entries) 7 (by norm_num)
        (weekStartOf today - 7)).2
  · intro hmax
    rw [hcur, if_neg hmax, hot]
  · norm_num [calculateOverallStreakWeeks, completeWeeksOf, entryWeekKeys, weekStartOf,
      weekTotal, Finset.filter_insert, Finset.filter_singleton, weeklyStatusOf, pacingBucket,
      predBackRun, wkScanMaxOf, wkScanGo, Finset.sort_insert, Finset.sort_singleton,
      Finset.max_insert, Finset.max_singleton]
    decide

/-- C1 counterexample: one numeric habit with weeklyGoal 7; the prior week
(week key 0) is complete and consecutive with the last fully-elapsed week,
the current week is on-track at day-of-week 3, so the claim as stated
requires currentStreak = 7 + 3 = 10 — but the current week is itself already
at 100% of goal, hence also a complete week and the latest one, so the code
skips the backward walk and returns only 3. -/
theorem c1_counterexample :
    (calculateOverallStreakWeeks [⟨"h", "", HabitType.numeric, 7, "", ⟨0, 0⟩, false, 0⟩]
      [⟨"a", "h", 0, 7, none, ⟨0, 0⟩, ⟨0, 0⟩⟩, ⟨"b", "h", 7, 7, none, ⟨0, 0⟩, ⟨0, 0⟩⟩]
      9).currentStreak = 3 ∧
    (0 : ℤ) ∈ completeWeeksOf [⟨"h", "", HabitType.numeric, 7, "", ⟨0, 0⟩, false, 0⟩]
      [⟨"a", "h", 0, 7, none, ⟨0, 0⟩, ⟨0, 0⟩⟩, ⟨"b", "h", 7, 7, none, ⟨0, 0⟩, ⟨0, 0⟩⟩] ∧
    weekStartOf 9 - 7 = 0 ∧
    (9 : ℤ) - weekStartOf 9 + 1 = 3 ∧
    (calculateOverallStreakWeeks [⟨"h", "", HabitType.numeric, 7, "", ⟨0, 0⟩, false, 0⟩]
      [⟨"a", "h", 0, 7, none, ⟨0, 0⟩, ⟨0, 0⟩⟩, ⟨"b", "h", 7, 7, none, ⟨0, 0⟩, ⟨0, 0⟩⟩]
      9).isCurrentWeekOnTrack = true ∧
    (calculateOverallStreakWeeks [⟨"h", "", HabitType.numeric, 7, "", ⟨0, 0⟩, false, 0⟩]
      [⟨"a", "h", 0, 7, none, ⟨0, 0⟩, ⟨0, 0⟩⟩, ⟨"b", "h", 7, 7, none, ⟨0, 0⟩, ⟨0, 0⟩⟩]
      9).currentStreak ≠ 7 + 3 := by
  have hCW : completeWeeksOf [⟨"h", "", HabitType.numeric, 7, "", ⟨0, 0⟩, false, 0⟩]
      [⟨"a", "h", 0, 7, none, ⟨0, 0⟩, ⟨0, 0⟩⟩, ⟨"b", "h", 7, 7, none, ⟨0, 0⟩, ⟨0, 0⟩⟩] =
      {0, 7} := by
    norm_num [completeWeeksOf, entryWeekKeys, weekStartOf, weekTotal, Finset.filter_insert,
      Finset.filter_singleton]
  have hr : calculateOverallStreakWeeks [⟨"h", "", HabitType.numeric, 7, "", ⟨0, 0⟩, false, 0⟩]
      [⟨"a", "h", 0, 7, none, ⟨0, 0⟩, ⟨0, 0⟩⟩, ⟨"b", "h", 7, 7, none, ⟨0, 0⟩, ⟨0, 0⟩⟩] 9 =
      ⟨3, 14, true, WeeklyStatus.onTrack⟩ := by
    norm_num [calculateOverallStreakWeeks, completeWeeksOf, entryWeekKeys, weekStartOf,
      weekTotal, Finset.filter_insert, Finset.filter_singleton, weeklyStatusOf, pacingBucket,
      predBackRun, wkScanMaxOf, wkScanGo, Finset.sort_insert, Finset.sort_singleton,
      Finset.max_insert, Finset.max_singleton]
    decide
  refine ⟨by rw [hr], by rw [hCW]; decide, by decide, by decide, by rw [hr], by rw [hr]; decide⟩

theorem c1_overall_streak_weeks_amended_witness :
    (calculateOverallStreakWeeks [⟨"h", "", HabitType.numeric, 7, "", ⟨0, 0⟩, false, 0⟩]
      [⟨"a", "h", 0, 7, none, ⟨0, 0⟩, ⟨0, 0⟩⟩, ⟨"b", "h", 7, 7, none, ⟨0, 0⟩, ⟨0, 0⟩⟩,
        ⟨"c", "h", 14, 3, none, ⟨0, 0⟩, ⟨0, 0⟩⟩] 16).currentStreak = 17 :=
  (c1_overall_streak_weeks_amended [⟨"h", "", HabitType.numeric, 7, "", ⟨0, 0⟩, false, 0⟩]
    [⟨"a", "h", 0, 7, none, ⟨0, 0⟩, ⟨0, 0⟩⟩, ⟨"b", "h", 7, 7, none, ⟨0, 0⟩, ⟨0, 0⟩⟩,
      ⟨"c", "h", 14, 3, none, ⟨0, 0⟩, ⟨0, 0⟩⟩] 16 (by simp)).2.2.2

/-- The data-model invariant: at most one entry per `(habitId, date)` key. -/
def UniqueKeys (l : List DailyEntry) : Prop :=
  l.Pairwise (fun a b => ¬(a.habitId = b.habitId ∧ a.date = b.date))

lemma uniqueKeys_symm :
    Symmetric (fun a b : DailyEntry => ¬(a.habitId = b.habitId ∧ a.date = b.date)) :=
  fun _ _ hab hba => hab ⟨hba.1.symm, hba.2.symm⟩

lemma UniqueKeys.perm {l1 l2 : List DailyEntry} (h : l1.Perm l2) (hu : UniqueKeys l1) :
    UniqueKeys l2 :=
  (h.pairwise_iff (fun hab hk => hab ⟨hk.1.symm, hk.2.symm⟩)).mp hu

lemma perm_isEmpty_eq {α : Type} {l1 l2 : List α} (h : l1.Perm l2) :
    l1.isEmpty = l2.isEmpty := by
  cases l1 with
  | nil =>
    have : l2 = [] := h.symm.eq_nil
    rw [this]
  | cons a t =>
    cases l2 with
    | nil => exact absurd h.eq_nil (by simp)
    | cons b u => rfl

lemma perm_any_eq {α : Type} (p : α → Bool) {l1 l2 : List α} (h : l1.Perm l2) :
    l1.any p = l2.any p := by
  induction h with
  | nil => rfl
  | cons x h ih => simp [List.any_cons, ih]
  | swap x y l => simp [List.any_cons, Bool.or_left_comm]
  | trans h1 h2 ih1 ih2 => rw [ih1, ih2]

lemma find?_eq_of_perm {α : Type} (p : α → Bool) {l1 l2 : List α} (h : l1.Perm l2)
    (hu : ∀ a ∈ l1, ∀ b ∈ l1, p a = true → p b = true → a = b) :
    l1.find? p = l2.find? p := by
  cases h1 : l1.find? p with
  | none =>
    cases h2 : l2.find? p with
    | none => rfl
    | some y =>
      exfalso
      have hy := List.find?_some h2
      have hymem : y ∈ l1 := h.mem_iff.mpr (List.mem_of_find?_eq_some h2)
      exact absurd hy (List.find?_eq_none.mp h1 y hymem)
  | some x =>
    cases h2 : l2.find? p with
    | none =>
      exfalso
      have hx := List.find?_some h1
      have hxmem : x ∈ l2 := h.mem_iff.mp (List.mem_of_find?_eq_some h1)
      exact absurd hx (List.find?_eq_none.mp h2 x hxmem)
    | some y =>
      have hx := List.find?_some h1
      have hy := List.find?_some h2
      have hxmem : x ∈ l1 := List.mem_of_find?_eq_some h1
      have hymem : y ∈ l1 := h.mem_iff.mpr (List.mem_of_find?_eq_some h2)
      rw [hu x hxmem y hymem hx hy]

lemma foldr_cond_insert_perm {α β : Type} [DecidableEq β] (cond : α → Bool) (key : α → β)
    {l1 l2 : List α} (h : l1.Perm l2) (init : Finset β) :
    l1.foldr (fun e s => if cond e then insert (key e) s else s) init =
      l2.foldr (fun e s => if cond e then insert (key e) s else s) init := by
  induction h generalizing init with
  | nil => rfl
  | cons x h ih => simp only [List.foldr_cons, ih]
  | swap x y l =>
    simp only [List.foldr_cons]
    by_cases hx : cond x = true <;> by_cases hy : cond y = true <;>
      simp [hx, hy, Finset.Insert.comm]
  | trans h1 h2 ih1 ih2 => rw [ih1, ih2]

lemma foldr_insert_perm {α β : Type} [DecidableEq β] (key : α → β)
    {l1 l2 : List α} (h : l1.Perm l2) (init : Finset β) :
    l1.foldr (fun e s => insert (key e) s) init =
      l2.foldr (fun e s => insert (key e) s) init := by
  induction h generalizing init with
  | nil => rfl
  | cons x h ih => simp only [List.foldr_cons, ih]
  | swap x y l =>
    simp only [List.foldr_cons]
    rw [Finset.Insert.comm]
  | trans h1 h2 ih1 ih2 => rw [ih1, ih2]

lemma filtered_sum_perm {l1 l2 : List DailyEntry} (h : l1.Perm l2) (p : DailyEntry → Bool) :
    ((l1.filter p).map (fun e => e.value)).sum = ((l2.filter p).map (fun e => e.value)).sum :=
  ((h.filter p).map (fun e => e.value)).sum_eq

lemma weekEntriesTotal_perm (habit : Habit) {l1 l2 : List DailyEntry} (h : l1.Perm l2)
    (ws : ℤ) : weekEntriesTotal habit l1 ws = weekEntriesTotal habit l2 ws :=
  filtered_sum_perm h _

lemma weekTotal_perm {l1 l2 : List DailyEntry} (h : l1.Perm l2) (w : ℤ) (hid : String) :
    weekTotal l1 w hid = weekTotal l2 w hid :=
  filtered_sum_perm h _

lemma calculateWeeklyStats_perm (habit : Habit) {l1 l2 : List DailyEntry} (h : l1.Perm l2)
    (ws today : ℤ) :
    calculateWeeklyStats habit l1 ws today = calculateWeeklyStats habit l2 ws today := by
  unfold calculateWeeklyStats
  rw [weekEntriesTotal_perm habit h ws]

lemma uniqueKeys_match_eq {l : List DailyEntry} (hu : UniqueKeys l) (hid : String) (d : ℤ) :
    ∀ a ∈ l, ∀ b ∈ l, (fun e => decide (e.habitId = hid ∧ e.date = d)) a = true →
      (fun e => decide (e.habitId = hid ∧ e.date = d)) b = true → a = b := by
  intro a ha b hb hpa hpb
  simp only [decide_eq_true_eq] at hpa hpb
  by_contra hne
  exact (hu.forall uniqueKeys_symm ha hb hne) ⟨hpa.1.trans hpb.1.symm, hpa.2.trans hpb.2.symm⟩

lemma overallPerfectDay_perm (habits : List Habit) {l1 l2 : List DailyEntry} (h : l1.Perm l2)
    (hu : UniqueKeys l1) (today d : ℤ) :
    overallPerfectDay habits l1 today d = overallPerfectDay habits l2 today d := by
  unfold overallPerfectDay
  have hfind : ∀ hab : Habit,
      l1.find? (fun e => decide (e.habitId = hab.id ∧ e.date = d)) =
        l2.find? (fun e => decide (e.habitId = hab.id ∧ e.date = d)) := by
    intro hab
    exact find?_eq_of_perm _ h (uniqueKeys_match_eq hu hab.id d)
  have hall : ((existingHabitsOn habits d).all (fun hab =>
      match l1.find? (fun e => decide (e.habitId = hab.id ∧ e.date = d)) with
      | some e => isEntryComplete e hab
      | none => false)) = ((existingHabitsOn habits d).all (fun hab =>
      match l2.find? (fun e => decide (e.habitId = hab.id ∧ e.date = d)) with
      | some e => isEntryComplete e hab
      | none => false)) := by
    apply congrArg
    funext hab
    rw [hfind hab]
  rw [hall]

lemma calculateOverallStats_perm (habits : List Habit) {l1 l2 : List DailyEntry}
    (h : l1.Perm l2) (hu : UniqueKeys l1) (ws today : ℤ) :
    calculateOverallStats habits l1 ws today = calculateOverallStats habits l2 ws today := by
  unfold calculateOverallStats
  have hstats : habits.map (fun hab => calculateWeeklyStats hab l1 ws today) =
      habits.map (fun hab => calculateWeeklyStats hab l2 ws today) :=
    List.map_congr_left (fun hab _ => calculateWeeklyStats_perm hab h ws today)
  have hpd : (fun d => overallPerfectDay habits l1 today d) =
      (fun d => overallPerfectDay habits l2 today d) :=
    funext (fun d => overallPerfectDay_perm habits h hu today d)
  rw [hstats, hpd]

lemma calculateHabitStreak_perm (habitId : String) (habit : Habit) {l1 l2 : List DailyEntry}
    (h : l1.Perm l2) (today : ℤ) :
    calculateHabitStreak habitId habit l1 today = calculateHabitStreak habitId habit l2 today := by
  unfold calculateHabitStreak
  have hfil : (l1.filter (fun e => decide (e.habitId = habitId))).Perm
      (l2.filter (fun e => decide (e.habitId = habitId))) := h.filter _
  have hemp := perm_isEmpty_eq hfil
  have hS : successDatesOf habit (l1.filter (fun e => decide (e.habitId = habitId))) =
      successDatesOf habit (l2.filter (fun e => decide (e.habitId = habitId))) :=
    foldr_cond_insert_perm (fun e => isEntryComplete e habit) (fun e => e.date) hfil ∅
  dsimp only
  rw [hemp, hS]

lemma uniqueKeys_match_eq' {l : List DailyEntry} (hu : UniqueKeys l) (d : ℤ) (hid : String) :
    ∀ a ∈ l, ∀ b ∈ l, (fun e => decide (e.date = d ∧ e.habitId = hid)) a = true →
      (fun e => decide (e.date = d ∧ e.habitId = hid)) b = true → a = b := by
  intro a ha b hb hpa hpb
  simp only [decide_eq_true_eq] at hpa hpb
  by_contra hne
  exact (hu.forall uniqueKeys_symm ha hb hne) ⟨hpa.2.trans hpb.2.symm, hpa.1.trans hpb.1.symm⟩

lemma foldl_best_skip (d : ℤ) (hid : String) :
    ∀ (rest : List DailyEntry) (acc : Option DailyEntry),
      (∀ b ∈ rest, ¬(b.date = d ∧ b.habitId = hid)) →
      rest.foldl
        (fun acc e =>
          if e.date = d ∧ e.habitId = hid then
            match acc with
            | none => some e
            | some ex => if ex.value < e.value then some e else acc
          else acc)
        acc = acc := by
  intro rest
  induction rest with
  | nil => intro acc _; rfl
  | cons b t ih =>
    intro acc hno
    simp only [List.foldl_cons]
    rw [if_neg (hno b (List.mem_cons_self b t))]
    exact ih acc (fun x hx => hno x (List.mem_cons_of_mem b hx))

lemma bestEntryFor_eq_find? {l : List DailyEntry} (hu : UniqueKeys l) (d : ℤ) (hid : String) :
    bestEntryFor l d hid = l.find? (fun e => decide (e.date = d ∧ e.habitId = hid)) := by
  unfold bestEntryFor
  induction l with
  | nil => rfl
  | cons e rest ih =>
    have hu' : UniqueKeys rest := (List.pairwise_cons.mp hu).2
    have hhead := (List.pairwise_cons.mp hu).1
    simp only [List.foldl_cons]
    by_cases he : e.date = d ∧ e.habitId = hid
    · rw [if_pos he]
      have hnone : ∀ b ∈ rest, ¬(b.date = d ∧ b.habitId = hid) := by
        intro b hb hbm
        exact hhead b hb ⟨he.2.trans hbm.2.symm, he.1.trans hbm.1.symm⟩
      rw [foldl_best_skip d hid rest (some e) hnone]
      simp [List.find?_cons, he]
    · rw [if_neg he]
      simp only [List.find?_cons, decide_eq_true_eq, if_neg he]
      have hdec : decide (e.date = d ∧ e.habitId = hid) = false := by
        simpa using he
      rw [hdec]
      exact ih hu'

lemma dayPerfect_perm (habits : List Habit) {l1 l2 : List DailyEntry} (h : l1.Perm l2)
    (hu : UniqueKeys l1) (d : ℤ) :
    dayPerfect habits l1 d = dayPerfect habits l2 d := by
  unfold dayPerfect
  have hbest : ∀ hid : String, bestEntryFor l1 d hid = bestEntryFor l2 d hid := by
    intro hid
    rw [bestEntryFor_eq_find? hu, bestEntryFor_eq_find? (hu.perm h),
      find?_eq_of_perm _ h (uniqueKeys_match_eq' hu d hid)]
  have hall : ((existingHabitsOn habits d).all (fun hab =>
      match bestEntryFor l1 d hab.id with
      | some e => isEntryComplete e hab
      | none => false)) = ((existingHabitsOn habits d).all (fun hab =>
      match bestEntryFor l2 d hab.id with
      | some e => isEntryComplete e hab
      | none => false)) := by
    apply congrArg
    funext hab
    rw [hbest hab.id]
  rw [perm_any_eq _ h, hall]

lemma calculateOverallStreakDays_perm (habits : List Habit) {l1 l2 : List DailyEntry}
    (h : l1.Perm l2) (hu : UniqueKeys l1) (today : ℤ) :
    calculateOverallStreakDays habits l1 today = calculateOverallStreakDays habits l2 today := by
  unfold calculateOverallStreakDays
  dsimp only
  have hP : (fun d => dayPerfect habits l1 d) = (fun d => dayPerfect habits l2 d) :=
    funext (fun d => dayPerfect_perm habits h hu d)
  have hD : entryDateKeys l1 = entryDateKeys l2 :=
    foldr_insert_perm (fun e : DailyEntry => e.date) h ∅
  have htot : (fun hid => ((l1.filter (fun e =>
      decide (weekStartOf today ≤ e.date ∧ e.date ≤ today ∧ e.habitId = hid))).map
        (fun e => e.value)).sum) =
      (fun hid => ((l2.filter (fun e =>
        decide (weekStartOf today ≤ e.date ∧ e.date ≤ today ∧ e.habitId = hid))).map
          (fun e => e.value)).sum) :=
    funext (fun hid => filtered_sum_perm h _)
  rw [hP, dayPerfect_perm habits h hu today, hD, htot]

lemma entryWeekKeys_perm {l1 l2 : List DailyEntry} (h : l1.Perm l2) :
    entryWeekKeys l1 = entryWeekKeys l2 :=
  foldr_insert_perm (fun e : DailyEntry => weekStartOf e.date) h ∅

lemma completeWeeksOf_perm (habits : List Habit) {l1 l2 : List DailyEntry} (h : l1.Perm l2) :
    completeWeeksOf habits l1 = completeWeeksOf habits l2 := by
  unfold completeWeeksOf
  rw [entryWeekKeys_perm h]
  apply Finset.filter_congr
  intro w _
  have hfun : (fun h' : Habit => decide (h'.weeklyGoal * (4/5) ≤ weekTotal l1 w h'.id)) =
      (fun h' : Habit => decide (h'.weeklyGoal * (4/5) ≤ weekTotal l2 w h'.id)) :=
    funext (fun h' => by rw [weekTotal_perm h w h'.id])
  rw [hfun]

lemma calculateOverallStreakWeeks_perm (habits : List Habit) {l1 l2 : List DailyEntry}
    (h : l1.Perm l2) (today : ℤ) :
    calculateOverallStreakWeeks habits l1 today = calculateOverallStreakWeeks habits l2 today := by
  unfold calculateOverallStreakWeeks
  dsimp only
  have hCW := completeWeeksOf_perm habits h
  have htot : (fun hid => weekTotal l1 (weekStartOf today) hid) =
      (fun hid => weekTotal l2 (weekStartOf today) hid) :=
    funext (fun hid => weekTotal_perm h _ hid)
  rw [hCW, htot]

lemma insertEntryDesc_perm (x : DailyEntry) (l : List DailyEntry) :
    (insertEntryDesc x l).Perm (x :: l) := by
  induction l with
  | nil => exact List.Perm.refl _
  | cons a t ih =>
    unfold insertEntryDesc
    by_cases hax : a.date ≤ x.date
    · rw [if_pos hax]
    · rw [if_neg hax]
      exact (ih.cons a).trans (List.Perm.swap x a t)

lemma sortEntriesDesc_perm (l : List DailyEntry) : (sortEntriesDesc l).Perm l := by
  induction l with
  | nil => exact List.Perm.refl _
  | cons a t ih =>
    show (insertEntryDesc a (sortEntriesDesc t)).Perm (a :: t)
    exact (insertEntryDesc_perm a _).trans (ih.cons a)

lemma mem_insertEntryDesc {x y : DailyEntry} {l : List DailyEntry} :
    y ∈ insertEntryDesc x l ↔ y = x ∨ y ∈ l :=
  ((insertEntryDesc_perm x l).mem_iff).trans List.mem_cons

lemma insertEntryDesc_sorted (x : DailyEntry) {l : List DailyEntry}
    (hs : l.Pairwise (fun a b => b.date ≤ a.date)) :
    (insertEntryDesc x l).Pairwise (fun a b => b.date ≤ a.date) := by
  induction l with
  | nil => simp [insertEntryDesc]
  | cons a t ih =>
    rcases List.pairwise_cons.mp hs with ⟨ha, ht⟩
    unfold insertEntryDesc
    by_cases hax : a.date ≤ x.date
    · rw [if_pos hax]
      refine List.pairwise_cons.mpr ⟨?_, hs⟩
      intro y hy
      rcases List.mem_cons.mp hy with rfl | hy'
      · exact hax
      · exact le_trans (ha y hy') hax
    · rw [if_neg hax]
      refine List.pairwise_cons.mpr ⟨?_, ih ht⟩
      intro y hy
      rcases mem_insertEntryDesc.mp hy with rfl | hy'
      · omega
      · exact ha y hy'

lemma sortEntriesDesc_sorted (l : List DailyEntry) :
    (sortEntriesDesc l).Pairwise (fun a b => b.date ≤ a.date) := by
  induction l with
  | nil => simp [sortEntriesDesc]
  | cons a t ih => exact insertEntryDesc_sorted a ih

lemma sortEntriesDesc_strict {l : List DailyEntry} (hu : UniqueKeys l) (habitId : String)
    (hhid : ∀ e ∈ l, e.habitId = habitId) :
    (sortEntriesDesc l).Pairwise (fun a b => b.date < a.date) := by
  have hs1p : (sortEntriesDesc l).Perm l := sortEntriesDesc_perm l
  have hus : UniqueKeys (sortEntriesDesc l) := UniqueKeys.perm hs1p.symm hu
  have hand := (sortEntriesDesc_sorted l).and hus
  apply hand.imp_of_mem
  intro a b ha hb hab
  obtain ⟨hle, huniq⟩ := hab
  have h1 := hhid a (hs1p.mem_iff.mp ha)
  have h2 := hhid b (hs1p.mem_iff.mp hb)
  have hne : b.date ≠ a.date := fun hd => huniq ⟨h1.trans h2.symm, hd.symm⟩
  exact lt_of_le_of_ne hle hne

lemma calculateStreakData_perm (habitId : String) {l1 l2 : List DailyEntry} (h : l1.Perm l2)
    (hu : UniqueKeys l1) (weeklyGoal : ℚ) (today : ℤ) :
    calculateStreakData habitId l1 weeklyGoal today =
      calculateStreakData habitId l2 weeklyGoal today := by
  have hfil : (l1.filter (fun e => decide (e.habitId = habitId))).Perm
      (l2.filter (fun e => decide (e.habitId = habitId))) := h.filter _
  have hu1 : UniqueKeys (l1.filter (fun e => decide (e.habitId = habitId))) := hu.filter _
  have hu2 : UniqueKeys (l2.filter (fun e => decide (e.habitId = habitId))) :=
    UniqueKeys.perm hfil hu1
  have hhid1 : ∀ e ∈ l1.filter (fun e => decide (e.habitId = habitId)), e.habitId = habitId := by
    intro e he
    simpa using (List.mem_filter.mp he).2
  have hhid2 : ∀ e ∈ l2.filter (fun e => decide (e.habitId = habitId)), e.habitId = habitId := by
    intro e he
    simpa using (List.mem_filter.mp he).2
  have hperm12 : (sortEntriesDesc (l1.filter (fun e => decide (e.habitId = habitId)))).Perm
      (sortEntriesDesc (l2.filter (fun e => decide (e.habitId = habitId)))) :=
    (sortEntriesDesc_perm _).trans (hfil.trans (sortEntriesDesc_perm _).symm)
  have hs12 : sortEntriesDesc (l1.filter (fun e => decide (e.habitId = habitId))) =
      sortEntriesDesc (l2.filter (fun e => decide (e.habitId = habitId))) := by
    haveI : IsAntisymm DailyEntry (fun a b => b.date < a.date) :=
      ⟨fun a b hab hba => absurd hba (by omega)⟩
    exact List.eq_of_perm_of_sorted hperm12
      (sortEntriesDesc_strict hu1 habitId hhid1) (sortEntriesDesc_strict hu2 habitId hhid2)
  unfold calculateStreakData
  rw [hs12]

/-- C9 (amended): every calculator is a pure function of its inputs and the
reference instant (determinism is definitional in the embedding), and for
entry lists satisfying the data-model invariant of at most one entry per
`(habitId, date)` key, permuting the entry list leaves every calculator's
output unchanged.  (Without the invariant, `calculateOverallStats` is
order-sensitive through `entries.find`, see the counterexample.) -/
theorem c9_perm_invariance (habit : Habit) (habits : List Habit) (habitId : String)
    (weeklyGoal : ℚ) (ws today : ℤ) {l1 l2 : List DailyEntry} (hperm : l1.Perm l2)
    (hu : UniqueKeys l1) :
    calculateWeeklyStats habit l1 ws today = calculateWeeklyStats habit l2 ws today ∧
    calculateOverallStats habits l1 ws today = calculateOverallStats habits l2 ws today ∧
    calculateHabitStreak habitId habit l1 today = calculateHabitStreak habitId habit l2 today ∧
    calculateStreakData habitId l1 weeklyGoal today =
      calculateStreakData habitId l2 weeklyGoal today ∧
    calculateOverallStreakDays habits l1 today = calculateOverallStreakDays habits l2 today ∧
    calculateOverallStreakWeeks habits l1 today = calculateOverallStreakWeeks habits l2 today :=
  ⟨calculateWeeklyStats_perm habit hperm ws today,
    calculateOverallStats_perm habits hperm hu ws today,
    calculateHabitStreak_perm habitId habit hperm today,
    calculateStreakData_perm habitId hperm hu weeklyGoal today,
    calculateOverallStreakDays_perm habits hperm hu today,
    calculateOverallStreakWeeks_perm habits hperm today⟩

/-- C9 counterexample: with two entries sharing the `(habitId, date)` key
(values 0 and 1, binary habit), `calculateOverallStats` counts 0 perfect
days in one order and 1 in the other, because the perfect-day check takes
the first entry found; so claim C9 as universally stated is false. -/
theorem c9_counterexample :
    ([(⟨"h_0", "h", 0, 0, none, ⟨0, 0⟩, ⟨0, 0⟩⟩ : DailyEntry),
      ⟨"h_0", "h", 0, 1, none, ⟨0, 0⟩, ⟨0, 0⟩⟩] : List DailyEntry).Perm
      [⟨"h_0", "h", 0, 1, none, ⟨0, 0⟩, ⟨0, 0⟩⟩, ⟨"h_0", "h", 0, 0, none, ⟨0, 0⟩, ⟨0, 0⟩⟩] ∧
    calculateOverallStats [⟨"h", "", HabitType.binary, 7, "", ⟨0, 0⟩, false, 0⟩]
      [⟨"h_0", "h", 0, 0, none, ⟨0, 0⟩, ⟨0, 0⟩⟩, ⟨"h_0", "h", 0, 1, none, ⟨0, 0⟩, ⟨0, 0⟩⟩] 0 0 ≠
    calculateOverallStats [⟨"h", "", HabitType.binary, 7, "", ⟨0, 0⟩, false, 0⟩]
      [⟨"h_0", "h", 0, 1, none, ⟨0, 0⟩, ⟨0, 0⟩⟩, ⟨"h_0", "h", 0, 0, none, ⟨0, 0⟩, ⟨0, 0⟩⟩] 0 0 := by
  refine ⟨List.Perm.swap _ _ _, ?_⟩
  intro heq
  have h1 : (calculateOverallStats [⟨"h", "", HabitType.binary, 7, "", ⟨0, 0⟩, false, 0⟩]
      [⟨"h_0", "h", 0, 0, none, ⟨0, 0⟩, ⟨0, 0⟩⟩, ⟨"h_0", "h", 0, 1, none, ⟨0, 0⟩, ⟨0, 0⟩⟩]
      0 0).weeklyPerfectDays = 0 := by decide
  have h2 : (calculateOverallStats [⟨"h", "", HabitType.binary, 7, "", ⟨0, 0⟩, false, 0⟩]
      [⟨"h_0", "h", 0, 1, none, ⟨0, 0⟩, ⟨0, 0⟩⟩, ⟨"h_0", "h", 0, 0, none, ⟨0, 0⟩, ⟨0, 0⟩⟩]
      0 0).weeklyPerfectDays = 1 := by decide
  rw [heq] at h1
  rw [h1] at h2
  exact absurd h2 (by decide)

theorem c9_perm_invariance_witness :
    ([(⟨"a", "h", 0, 1, none, ⟨0, 0⟩, ⟨0, 0⟩⟩ : DailyEntry),
        ⟨"b", "h", 1, 1, none, ⟨0, 0⟩, ⟨0, 0⟩⟩] : List DailyEntry).Perm
      [⟨"b", "h", 1, 1, none, ⟨0, 0⟩, ⟨0, 0⟩⟩, ⟨"a", "h", 0, 1, none, ⟨0, 0⟩, ⟨0, 0⟩⟩] ∧
    UniqueKeys [⟨"a", "h", 0, 1, none, ⟨0, 0⟩, ⟨0, 0⟩⟩,
      ⟨"b", "h", 1, 1, none, ⟨0, 0⟩, ⟨0, 0⟩⟩] ∧
    calculateOverallStats [⟨"h", "", HabitType.binary, 7, "", ⟨0, 0⟩, false, 0⟩]
      [⟨"a", "h", 0, 1, none, ⟨0, 0⟩, ⟨0, 0⟩⟩, ⟨"b", "h", 1, 1, none, ⟨0, 0⟩, ⟨0, 0⟩⟩] 0 0 =
    calculateOverallStats [⟨"h", "", HabitType.binary, 7, "", ⟨0, 0⟩, false, 0⟩]
      [⟨"b", "h", 1, 1, none, ⟨0, 0⟩, ⟨0, 0⟩⟩, ⟨"a", "h", 0, 1, none, ⟨0, 0⟩, ⟨0, 0⟩⟩] 0 0 :=
  ⟨List.Perm.swap _ _ _, by simp [UniqueKeys],
    (c9_perm_invariance ⟨"h", "", HabitType.binary, 7, "", ⟨0, 0⟩, false, 0⟩
      [⟨"h", "", HabitType.binary, 7, "", ⟨0, 0⟩, false, 0⟩] "h" 7 0 0
      (List.Perm.swap _ _ _) (by simp [UniqueKeys])).2.1⟩

lemma mem_entryDateKeys {l : List DailyEntry} {d : ℤ} :
    d ∈ entryDateKeys l ↔ ∃ e ∈ l, e.date = d := by
  induction l with
  | nil => simp [entryDateKeys]
  | cons e t ih =>
    show d ∈ insert e.date (entryDateKeys t) ↔ _
    rw [Finset.mem_insert, ih]
    constructor
    · rintro (h | ⟨x, hx, hd⟩)
      · exact ⟨e, List.mem_cons_self e t, h.symm⟩
      · exact ⟨x, List.mem_cons_of_mem e hx, hd⟩
    · rintro ⟨x, hx, hd⟩
      rcases List.mem_cons.mp hx with rfl | hx'
      · exact Or.inl hd.symm
      · exact Or.inr ⟨x, hx', hd⟩

lemma dayPerfect_mem_dateKeys (habits : List Habit) (entries : List DailyEntry) (d : ℤ)
    (h : dayPerfect habits entries d = true) : d ∈ entryDateKeys entries := by
  unfold dayPerfect at h
  by_cases hany : entries.any (fun e => decide (e.date = d)) = true
  · obtain ⟨e, he, hed⟩ := List.any_eq_true.mp hany
    exact mem_entryDateKeys.mpr ⟨e, he, by simpa using hed⟩
  · rw [if_neg hany] at h
    exact absurd h (by simp)

/-- The fuel bound `card + 1` given to the perfect-day backward walk of the
day-based `calculateOverallStreak` is never reached: perfect days all carry
entries, so the walk stops by predicate failure, exactly as the source's
unbounded `while` loop does. -/
lemma overallStreakDays_fuel_adequate (habits : List Habit) (entries : List DailyEntry)
    (today : ℤ) :
    predBackRun (fun d => dayPerfect habits entries d) 1 (today - 1)
      ((entryDateKeys entries).card + 1) ≤ (entryDateKeys entries).card :=
  predBackRun_le_of_subset _ (entryDateKeys entries) 1 one_ne_zero
    (fun x hx => dayPerfect_mem_dateKeys habits entries x hx) (today - 1) _
